import Mathlib

/-!
# Verification of the `converge` multi-agent coordination runtime

A shallow embedding, in Lean 4, of the parts of the `converge` code base that
the specification's claims are about:

* `converge/core/message.py` — `Message`, canonical serialization for signing
  (msgpack), `sign` / `verify` (Ed25519), `encrypt_payload` / `decrypt_payload`
  (AES-256-GCM via `converge/extensions/crypto/symmetric.py`);
* `converge/core/identity.py` — `Identity` (Ed25519 keypair, SHA-256 fingerprint);
* `converge/core/task.py`, `converge/coordination/task_manager.py` — the task
  state machine: `submit`, `claim`, `report`, `fail_task`, `cancel_task`,
  `release_expired_claims`;
* `converge/core/store.py`, `converge/extensions/storage/memory.py` —
  the `Store` base class (`put_if_absent`) over the in-memory backend;
* `converge/network/transport/local.py`, `converge/network/transport/tcp.py` —
  `LocalTransport.send` routing and `TcpTransport.send`;
* `converge/runtime/executor.py` (`StandardExecutor.execute`, the `SendMessage`
  branch), `converge/network/network.py` (`AgentNetwork.send`) and
  `converge/runtime/loop.py` (`_execute_decision_fallback`).

Modelling conventions.  Python dictionaries are association lists with
first-match lookup and replace-in-place-or-append update (`dget` / `dput`),
Python sets are duplicate-free lists, Python string slicing / prefix tests are
the character-list operations `pyDrop` / `pyStartsWith`.  Times and TTLs
(`time.monotonic()` readings, `claim_ttl_sec`) are modelled as integers: the
code holds IEEE doubles but only ever subtracts and compares them, which the
integer model reflects faithfully.  External cryptographic libraries
(`cryptography`'s Ed25519 and AES-GCM, `hashlib.sha256`) are not part of the
repository and are modelled as ideal primitives: signatures and ciphertexts
are opaque values that record exactly the inputs that produced them, and
hashing/encoding steps that the library guarantees to be injective or mutually
inverse (sha256 hex, base64, `json.dumps`/`json.loads` on string-keyed
payloads) are folded into those opaque values.  The msgpack byte encoding used
by `Message._serialize_for_signing` is reproduced concretely (for ASCII
strings, which is all the claims exercise).
-/

namespace Converge

/-! ## Python-dictionary, set and string primitives -/

/-- First-match lookup in an association list: `d.get(k)` on a Python dict
modelled as its item list. -/
def dget {α : Type} : List (String × α) → String → Option α
  | [], _ => none
  | (k', v) :: rest, k => if k' = k then some v else dget rest k

/-- `d[k] = v` on a Python dict: replace the first entry with key `k`,
or append a new entry when the key is absent (Python insertion order). -/
def dput {α : Type} : List (String × α) → String → α → List (String × α)
  | [], k, v => [(k, v)]
  | (k', v') :: rest, k, v =>
    if k' = k then (k, v) :: rest else (k', v') :: dput rest k v

/-- `list(d.keys())` on a Python dict. -/
def dkeys {α : Type} (l : List (String × α)) : List String := l.map Prod.fst

/-- `s.add(x)` on a Python set modelled as a duplicate-free list. -/
def sadd (l : List String) (x : String) : List String :=
  if x ∈ l then l else l ++ [x]

/-- `s.discard(x)` on a Python set. -/
def sdiscard (l : List String) (x : String) : List String :=
  l.filter (fun y => y ≠ x)

/-- Python string slicing `s[n:]` (character-based, as in Python). -/
def pyDrop (s : String) (n : Nat) : String := ⟨s.data.drop n⟩

/-- Python `s.startswith(p)` (character-based). -/
def pyStartsWith (s p : String) : Bool := p.data.isPrefixOf s.data

/-- The exception kinds the embedded code can raise: `ValueError`
(invalid argument), `RuntimeError` (e.g. "Transport not started"), and the
`cryptography` library's `InvalidTag` (AES-GCM authentication failure). -/
inductive PyErr where
  | valueError : PyErr
  | runtimeError : PyErr
  | invalidTag : PyErr
  deriving DecidableEq, Repr

/-! ## msgpack values and byte encoding

`Message._serialize_for_signing` builds a Python dict and calls
`msgpack.packb` on it (no `sort_keys` option exists for msgpack's packer; the
dict is packed in insertion order).  `PVal` models the JSON-ish values that
appear in message payloads.  The `encblob` constructor models the single
base64 string `base64(nonce ‖ AESGCM(key, nonce, json.dumps(inner)))` that
`encrypt_payload` stores under the `"_encrypted"` payload key: the external
AES-GCM / base64 / json steps are idealized as an opaque value recording the
nonce, the key and the original payload (the real triple is injective and
mutually inverse, which is all the model relies on). -/

inductive PVal where
  | str : String → PVal
  | int : Nat → PVal
  | nil : PVal
  | arr : List PVal → PVal
  | map : List (String × PVal) → PVal
  | encblob : List Nat → List Nat → List (String × PVal) → PVal

/-- Big-endian base-256 digits of `n`, padded to `w` bytes. -/
def beBytes (w n : Nat) : List Nat :=
  match w with
  | 0 => []
  | w' + 1 => beBytes w' (n / 256) ++ [n % 256]

/-- UTF-8 bytes of an ASCII string (code points below 128, which is all the
embedded messages use), as numbers. -/
def strBytes (s : String) : List Nat := s.data.map Char.toNat

/-- msgpack encoding of a string: fixstr / str8 / str16 headers. -/
def packStr (s : String) : List Nat :=
  let b := strBytes s
  if b.length ≤ 31 then (160 + b.length) :: b
  else if b.length ≤ 255 then 217 :: b.length :: b
  else 218 :: beBytes 2 b.length ++ b

/-- msgpack encoding of a non-negative integer (positive fixint / uint8 /
uint16 / uint32 / uint64). -/
def packNat (n : Nat) : List Nat :=
  if n ≤ 127 then [n]
  else if n ≤ 255 then [204, n]
  else if n ≤ 65535 then 205 :: beBytes 2 n
  else if n ≤ 4294967295 then 206 :: beBytes 4 n
  else 207 :: beBytes 8 n

/-- msgpack array header (fixarray / array16). -/
def arrHeader (n : Nat) : List Nat :=
  if n ≤ 15 then [144 + n] else 220 :: beBytes 2 n

/-- msgpack map header (fixmap / map16). -/
def mapHeader (n : Nat) : List Nat :=
  if n ≤ 15 then [128 + n] else 222 :: beBytes 2 n

mutual

/-- msgpack encoding of a payload value.  Maps are packed **in entry order**
(msgpack has no canonical-order mode and `_serialize_for_signing` passes the
dict as is).  An `encblob` appears on the wire as the base64 text of
`nonce ‖ ciphertext`; its bytes are modelled by an injective opaque encoding
(tag 199) that no signing claim depends on. -/
def packV : PVal → List Nat
  | .str s => packStr s
  | .int n => packNat n
  | .nil => [192]
  | .arr l => arrHeader l.length ++ packVList l
  | .map l => mapHeader l.length ++ packVPairs l
  | .encblob nonce key inner =>
      199 :: nonce.length :: nonce ++ key ++ packVPairs inner

/-- msgpack encoding of the elements of an array, in order. -/
def packVList : List PVal → List Nat
  | [] => []
  | v :: vs => packV v ++ packVList vs

/-- msgpack encoding of the entries of a map, in order: each key (a string)
followed by its value. -/
def packVPairs : List (String × PVal) → List Nat
  | [] => []
  | (k, v) :: rest => packStr k ++ packV v ++ packVPairs rest

end

/-! ## Topics (`converge/core/topic.py`) -/

/-- A topic attribute value; the code stores arbitrary scalars and formats
them with `f"{k}={v}"`, so the model keeps the two kinds the claims use. -/
inductive AVal where
  | s : String → AVal
  | i : Nat → AVal
  deriving DecidableEq, Repr

/-- Python `str(v)` for an attribute value. -/
def AVal.text : AVal → String
  | .s x => x
  | .i n => toString n

/-- `Topic`: routing label `{namespace, attributes, version}` with
`version = "1.0"` by default. -/
structure Topic where
  namespace_ : String
  attributes : List (String × AVal)
  version : String := "1.0"
  deriving DecidableEq, Repr

/-- Insertion sort of attribute items by key, modelling Python
`sorted(self.attributes.items())` (dict keys are unique, so comparing keys
suffices). -/
def insertByKey (p : String × AVal) : List (String × AVal) → List (String × AVal)
  | [] => [p]
  | q :: rest => if p.1 ≤ q.1 then p :: q :: rest else q :: insertByKey p rest

/-- Sorted attribute item list, by key. -/
def sortByKey : List (String × AVal) → List (String × AVal)
  | [] => []
  | p :: rest => insertByKey p (sortByKey rest)

/-- `",".join(f"{k}={v}" for k, v in sorted(attrs.items()))`. -/
def attrsText (l : List (String × AVal)) : String :=
  String.intercalate "," ((sortByKey l).map (fun p => p.1 ++ "=" ++ p.2.text))

/-- `Topic.__str__`: `f"{namespace}[{attrs}]v{version}"`. -/
def Topic.canonical (t : Topic) : String :=
  t.namespace_ ++ "[" ++ attrsText t.attributes ++ "]v" ++ t.version

/-! ## Identity (`converge/core/identity.py`), idealized Ed25519 and SHA-256

Keypairs are indexed by the seed of `Ed25519PrivateKey.generate()`: seed `n`
yields private key `n` and public key `n` (the private-to-public derivation is
a bijection, so one index models both halves).  The fingerprint — the SHA-256
hex digest of the public key — is modelled by an injective tagged rendering of
the key index. -/

/-- Idealized `hashlib.sha256(public_bytes).hexdigest()`: injective in the
public key. -/
def sha256Hex (publicKey : Nat) : String := "sha256:" ++ toString publicKey

/-- `Identity`: `{public_key, private_key (optional), fingerprint}`. -/
structure Identity where
  public_key : Nat
  private_key : Option Nat
  fingerprint : String
  deriving DecidableEq, Repr

/-- `Identity.generate()` for keypair seed `n`: both key halves plus the
fingerprint of the public key. -/
def Identity.generate (n : Nat) : Identity :=
  { public_key := n, private_key := some n, fingerprint := sha256Hex n }

/-- `Identity.from_public_key(pk)`: no private half. -/
def Identity.from_public_key (pk : Nat) : Identity :=
  { public_key := pk, private_key := none, fingerprint := sha256Hex pk }

/-- An idealized Ed25519 signature: it records the private key and the exact
content bytes that were signed, and verifies against nothing else. -/
structure Sig where
  priv : Nat
  content : List Nat
  deriving DecidableEq, Repr

/-- Idealized `Ed25519PublicKey.verify(signature, content)`: succeeds exactly
when the signature was produced by the matching private key over exactly these
content bytes. -/
def ed25519Verify (publicKey : Nat) (content : List Nat) (sig : Sig) : Bool :=
  sig.priv = publicKey ∧ sig.content = content

/-! ## Message (`converge/core/message.py`) -/

/-- `Message`: a frozen dataclass.  `signature = none` models the empty-bytes
default `b""` (the code tests it with `if not self.signature`). -/
structure Message where
  id : String
  sender : String
  recipient : Option String
  topics : List Topic
  payload : List (String × PVal)
  task_id : Option String
  timestamp : Nat
  signature : Option Sig

/-- msgpack value of an optional string field (`None` packs as nil). -/
def optStrV : Option String → PVal
  | none => .nil
  | some s => .str s

/-- `Message._serialize_for_signing`: `msgpack.packb` of the dict
`{id, sender, recipient, topics (canonical strings), payload, task_id,
timestamp}`, in exactly that insertion order, signature excluded. -/
def serializeForSigning (m : Message) : List Nat :=
  packV (.map
    [ ("id", .str m.id)
    , ("sender", .str m.sender)
    , ("recipient", optStrV m.recipient)
    , ("topics", .arr (m.topics.map (fun t => .str t.canonical)))
    , ("payload", .map m.payload)
    , ("task_id", optStrV m.task_id)
    , ("timestamp", .int m.timestamp) ])

/-- `Message.sign(identity)`: raises `ValueError` without a private key;
otherwise signs the canonical bytes of the message **as it currently is**
(the current `sender`), then returns a copy whose `sender` is replaced by
`identity.fingerprint` and whose `signature` is the fresh signature. -/
def Message.sign (m : Message) (identity : Identity) : Except PyErr Message :=
  let content := serializeForSigning m
  match identity.private_key with
  | none => .error .valueError
  | some k =>
      .ok { m with signature := some { priv := k, content := content },
                   sender := identity.fingerprint }

/-- `Message.verify(sender_public_key)`: false on an empty signature;
otherwise recomputes the canonical bytes of **this** message and runs Ed25519
verification (any exception yields false). -/
def Message.verify (m : Message) (senderPublicKey : Nat) : Bool :=
  match m.signature with
  | none => false
  | some sig => ed25519Verify senderPublicKey (serializeForSigning m) sig

/-! ## Symmetric payload encryption
(`converge/extensions/crypto/symmetric.py`, `Message.encrypt_payload` /
`Message.decrypt_payload`)

`encrypt(plaintext, key)` draws a random 12-byte nonce; the model passes the
nonce explicitly.  The AES-256-GCM ciphertext, its base64 text and the
`json.dumps` plaintext are idealized into the `PVal.encblob` value (see
above). -/

/-- `symmetric.encrypt` as used by `encrypt_payload`: `ValueError` unless the
key is 32 bytes; otherwise the blob `nonce ‖ AESGCM(key, nonce, plaintext)`;
the 12-byte nonce is the caller-supplied randomness. -/
def symEncrypt (payload : List (String × PVal)) (key : List Nat)
    (nonce : List Nat) : Except PyErr PVal :=
  if key.length ≠ 32 then .error .valueError
  else .ok (.encblob nonce key payload)

/-- `symmetric.decrypt` (plus the base64 decode and `json.loads` around it)
applied to a payload value found under `"_encrypted"`: `ValueError` unless the
key is 32 bytes; GCM authentication fails (`InvalidTag`) on a blob produced
under a different key, and on any value that is not such a blob. -/
def symDecrypt (v : PVal) (key : List Nat) :
    Except PyErr (List (String × PVal)) :=
  if key.length ≠ 32 then .error .valueError
  else match v with
    | .encblob _ k inner => if k = key then .ok inner else .error .invalidTag
    | _ => .error .invalidTag

/-- `Message.encrypt_payload(key)`: a copy whose payload is the single-entry
dict `{"_encrypted": base64(nonce ‖ ciphertext)}`. -/
def Message.encrypt_payload (m : Message) (key : List Nat) (nonce : List Nat) :
    Except PyErr Message :=
  match symEncrypt m.payload key nonce with
  | .error e => .error e
  | .ok blob => .ok { m with payload := [("_encrypted", blob)] }

/-- `Message.decrypt_payload(key)`: when `"_encrypted"` is absent from the
payload the very same message is returned; otherwise the blob is decoded and
decrypted and a copy with the recovered payload is returned. -/
def Message.decrypt_payload (m : Message) (key : List Nat) :
    Except PyErr Message :=
  match dget m.payload "_encrypted" with
  | none => .ok m
  | some v =>
    match symDecrypt v key with
    | .error e => .error e
    | .ok payload => .ok { m with payload := payload }

/-! ## Store (`converge/core/store.py`) over the in-memory backend
(`converge/extensions/storage/memory.py`)

`MemoryStore._data` is a `dict[str, Any]`; stored values may themselves be
Python `None`, so an entry's value is an `Option α` (with `none` modelling a
stored `None`).  `get` returns `None` both for a missing key and for a stored
`None` — the distinction `put_if_absent` turns on. -/

structure MemoryStore (α : Type) where
  data : List (String × Option α)

/-- `MemoryStore.get`: `self._data.get(key)`. -/
def MemoryStore.get {α : Type} (s : MemoryStore α) (k : String) : Option α :=
  match dget s.data k with
  | none => none
  | some v => v

/-- `MemoryStore.put`: `self._data[key] = value`. -/
def MemoryStore.put {α : Type} (s : MemoryStore α) (k : String) (v : Option α) :
    MemoryStore α := ⟨dput s.data k v⟩

/-- `MemoryStore.delete`. -/
def MemoryStore.delete {α : Type} (s : MemoryStore α) (k : String) :
    MemoryStore α := ⟨s.data.filter (fun p => p.1 ≠ k)⟩

/-- `MemoryStore.list(prefix)`: keys starting with the prefix, in dict order. -/
def MemoryStore.list {α : Type} (s : MemoryStore α) (pre : String) :
    List String := (dkeys s.data).filter (fun k => pyStartsWith k pre)

/-- `Store.put_if_absent` (the base-class default, which `MemoryStore` does
not override): `get` then `put`, returning whether the value was stored. -/
def MemoryStore.put_if_absent {α : Type} (s : MemoryStore α) (k : String)
    (v : Option α) : Bool × MemoryStore α :=
  if (s.get k).isSome then (false, s) else (true, s.put k v)

/-! ## Task (`converge/core/task.py`) -/

inductive TaskState where
  | pending | assigned | running | completed | failed | cancelled
  deriving DecidableEq, Repr

/-- COMPLETED, FAILED and CANCELLED are the terminal states. -/
def TaskState.isTerminal : TaskState → Bool
  | .completed | .failed | .cancelled => true
  | _ => false

/-- A task-constraint value: `.num q` is any value Python `float()` converts
(ints, floats, numeric strings); `.nan s` is any value on which `float()`
raises `TypeError` or `ValueError`. -/
inductive CVal where
  | num : Int → CVal
  | nan : String → CVal
  deriving DecidableEq, Repr

/-- `float(v)`, returning `none` where the code's `try/except` would catch. -/
def pyFloat : CVal → Option Int
  | .num q => some q
  | .nan _ => none

/-- `Task` with the defaults of the dataclass; `result = .nil` models the
`None` default. -/
structure Task where
  id : String
  objective : List (String × PVal) := []
  inputs : List (String × PVal) := []
  outputs : Option (List (String × PVal)) := none
  constraints : List (String × CVal) := []
  evaluator : String := "default"
  state : TaskState := .pending
  assigned_to : Option String := none
  result : PVal := .nil
  claimed_at : Option Int := none
  pool_id : Option String := none
  topic : Option Topic := none
  required_capabilities : List String := []

/-! ## TaskManager (`converge/coordination/task_manager.py`) -/

/-- The store key of a task: `f"task:{task.id}"`. -/
def taskKey (id : String) : String := "task:" ++ id

/-- `TaskManager` state: the backing store, the in-memory task cache and the
pending-id index. -/
structure TaskManager where
  store : MemoryStore Task
  tasks : List (String × Task)
  pending_task_ids : List String

/-- The lookup idiom repeated by `claim` / `cancel_task` / `fail_task` /
`report`: read the in-memory cache; on a miss read the store and, when the
task is found there, cache it under the requested id. -/
def TaskManager.findTask (tm : TaskManager) (task_id : String) :
    Option Task × TaskManager :=
  match dget tm.tasks task_id with
  | some t => (some t, tm)
  | none =>
    match tm.store.get (taskKey task_id) with
    | some t => (some t, { tm with tasks := dput tm.tasks task_id t })
    | none => (none, tm)

/-- `TaskManager.submit`. -/
def TaskManager.submit (tm : TaskManager) (task : Task) : String × TaskManager :=
  let tm1 := { tm with tasks := dput tm.tasks task.id task,
                       store := tm.store.put (taskKey task.id) (some task) }
  let tm2 := if task.state = .pending
    then { tm1 with pending_task_ids := sadd tm1.pending_task_ids task.id }
    else tm1
  (task.id, tm2)

/-- The successful branch of `claim`: mark the task ASSIGNED to the agent at
the monotonic reading `now`, drop the id from the pending index and persist. -/
def TaskManager.claimGo (tm : TaskManager) (agent_id task_id : String)
    (task : Task) (now : Int) : Bool × TaskManager :=
  if task.state ≠ .pending then (false, tm)
  else
    let t2 := { task with state := .assigned, assigned_to := some agent_id,
                          claimed_at := some now }
    (true, { tm with tasks := dput tm.tasks task_id t2,
                     pending_task_ids := sdiscard tm.pending_task_ids task_id,
                     store := tm.store.put (taskKey t2.id) (some t2) })

/-- `TaskManager.claim(agent_id, task_id)`; `now` is the `time.monotonic()`
reading taken at the assignment. -/
def TaskManager.claim (tm : TaskManager) (agent_id task_id : String)
    (now : Int) : Bool × TaskManager :=
  match dget tm.tasks task_id with
  | some task => tm.claimGo agent_id task_id task now
  | none =>
    match tm.store.get (taskKey task_id) with
    | some task =>
        TaskManager.claimGo { tm with tasks := dput tm.tasks task_id task }
          agent_id task_id task now
    | none => (false, tm)

/-- `TaskManager.cancel_task`. -/
def TaskManager.cancel_task (tm : TaskManager) (task_id : String) :
    Bool × TaskManager :=
  let r := tm.findTask task_id
  match r.1 with
  | none => (false, r.2)
  | some task =>
    if task.state = .completed ∨ task.state = .failed ∨ task.state = .cancelled
    then (false, r.2)
    else
      let t2 := { task with state := .cancelled, assigned_to := none,
                            claimed_at := none }
      (true, { r.2 with
                 pending_task_ids := sdiscard r.2.pending_task_ids task_id,
                 tasks := dput r.2.tasks task_id t2,
                 store := r.2.store.put (taskKey t2.id) (some t2) })

/-- `TaskManager.fail_task(task_id, reason, agent_id=...)`: no terminal-state
check appears in the code; the only guard is the authorization check when
`agent_id` is supplied. -/
def TaskManager.fail_task (tm : TaskManager) (task_id : String) (reason : PVal)
    (agent_id : Option String) : Except PyErr TaskManager :=
  let r := tm.findTask task_id
  match r.1 with
  | none => .ok r.2
  | some task =>
    if agent_id ≠ none ∧ task.assigned_to ≠ agent_id then .error .valueError
    else
      let t2 := { task with state := .failed, result := reason,
                            claimed_at := none }
      .ok { r.2 with tasks := dput r.2.tasks task_id t2,
                     store := r.2.store.put (taskKey t2.id) (some t2) }

/-- `TaskManager.report(agent_id, task_id, result)`: silent on a missing
task; `ValueError` when `assigned_to` is not this agent; otherwise set the
result and move to COMPLETED — again with no terminal-state check. -/
def TaskManager.report (tm : TaskManager) (agent_id task_id : String)
    (result : PVal) : Except PyErr TaskManager :=
  let r := tm.findTask task_id
  match r.1 with
  | none => .ok r.2
  | some task =>
    if task.assigned_to ≠ some agent_id then .error .valueError
    else
      let t2 := { task with result := result, state := .completed }
      .ok { r.2 with tasks := dput r.2.tasks task_id t2,
                     store := r.2.store.put (taskKey t2.id) (some t2) }

/-- `TaskManager.get_task`. -/
def TaskManager.get_task (tm : TaskManager) (task_id : String) :
    Option Task × TaskManager :=
  match dget tm.tasks task_id with
  | some t => (some t, tm)
  | none =>
    match tm.store.get (taskKey task_id) with
    | none => (none, tm)
    | some t =>
      let tm1 := { tm with tasks := dput tm.tasks task_id t }
      let tm2 := if t.state = .pending
        then { tm1 with pending_task_ids := sadd tm1.pending_task_ids task_id }
        else tm1
      (some t, tm2)

/-- `TaskManager.list_pending_tasks`. -/
def TaskManager.list_pending_tasks (tm : TaskManager) : List Task :=
  tm.pending_task_ids.filterMap (fun tid => dget tm.tasks tid)

/-- `task.constraints.get("claim_ttl_sec")` followed by the `is None` guard
and the guarded `float(ttl)` conversion: `none` exactly when the code's loop
body `continue`s before the expiry comparison. -/
def ttlOf (task : Task) : Option Int :=
  match dget task.constraints "claim_ttl_sec" with
  | none => none
  | some v => pyFloat v

/-- The release mutation shared by both loops of `release_expired_claims`:
back to PENDING, assignment cleared, id re-indexed and persisted, id appended
to the released list. -/
def releaseNow (tm : TaskManager) (released : List String) (task_id : String)
    (task : Task) : TaskManager × List String :=
  let t2 := { task with state := .pending, assigned_to := none,
                        claimed_at := none }
  ({ tm with tasks := dput tm.tasks task_id t2,
             pending_task_ids := sadd tm.pending_task_ids task_id,
             store := tm.store.put (taskKey t2.id) (some t2) },
   released ++ [task_id])

/-- One iteration of the first loop of `release_expired_claims` (the scan of
the store keys): state `(tm, seen_ids, released)`.  Ids already seen are
skipped; an ASSIGNED task with a claim time is loaded into the cache and, when
its TTL has expired, released. -/
def relStoreStep (now : Int) (st : TaskManager × List String × List String)
    (key : String) : TaskManager × List String × List String :=
  let tm := st.1
  let seen := st.2.1
  let released := st.2.2
  let task_id := if pyStartsWith key "task:" then pyDrop key 5 else key
  if task_id ∈ seen then st
  else
    let seen2 := sadd seen task_id
    match tm.store.get key with
    | none => (tm, seen2, released)
    | some task =>
      match task.claimed_at with
      | none => (tm, seen2, released)
      | some c =>
        if task.state ≠ .assigned then (tm, seen2, released)
        else
          let tm1 := { tm with tasks := dput tm.tasks task_id task }
          match ttlOf task with
          | none => (tm1, seen2, released)
          | some ttl =>
            if now - c ≥ ttl then
              let r := releaseNow tm1 released task_id task
              (r.1, seen2, r.2)
            else (tm1, seen2, released)

/-- One iteration of the second loop of `release_expired_claims` (the scan of
a snapshot of the in-memory task ids): state `(tm, released)`. -/
def relMemStep (now : Int) (st : TaskManager × List String) (tid : String) :
    TaskManager × List String :=
  let tm := st.1
  let released := st.2
  match dget tm.tasks tid with
  | none => st
  | some task =>
    match task.claimed_at with
    | none => st
    | some c =>
      if task.state ≠ .assigned then st
      else
        match ttlOf task with
        | none => st
        | some ttl =>
          if now - c ≥ ttl then releaseNow tm released tid task
          else st

/-- `TaskManager.release_expired_claims(now_ts)`: the store scan (seeded with
the in-memory ids, so store entries shadowed by the cache are skipped)
followed by the scan of the in-memory ids; returns the released ids. -/
def TaskManager.release_expired_claims (tm : TaskManager) (now : Int) :
    List String × TaskManager :=
  let keys := tm.store.list "task:"
  let o1 := keys.foldl (relStoreStep now) (tm, dkeys tm.tasks, [])
  let o2 := (dkeys o1.1.tasks).foldl (relMemStep now) (o1.1, o1.2.2)
  (o2.2, o2.1)

/-! ## In-process transport (`converge/network/transport/local.py`) -/

/-- The shared `LocalTransportRegistry`: registered fingerprints (the keys of
`queues`; the queue objects themselves carry no routing information) and the
per-agent sets of subscribed topic namespaces. -/
structure LocalRegistry where
  queues : List String
  topic_subscriptions : List (String × List String)

/-- `get_subscribers_for_topics`: the agents whose subscribed namespaces meet
the message's namespaces (`namespaces & set(topic_namespaces)` non-empty). -/
def getSubscribersForTopics (reg : LocalRegistry) (nss : List String) :
    List String :=
  reg.topic_subscriptions.filterMap
    (fun p => if p.2.any (fun ns => ns ∈ nss) then some p.1 else none)

/-- Python truthiness of the `recipient` field (`str | None`): `None` and the
empty string are falsy. -/
def pyTruthy : Option String → Bool
  | none => false
  | some s => s ≠ ""

/-- `LocalTransport.send`: `RuntimeError` unless started; otherwise route to
a target set — the recipient alone when truthy, else the topic subscribers
(falling back to every registered queue when there are none), else every
registered queue — and deliver to each target's queue, skipping the sender's
own queue in the broadcast cases (`agent_id == self.agent_id and not
message.recipient`) and skipping targets with no registered queue.  The
result is the list of fingerprints whose queue received the message. -/
def LocalTransport.send (reg : LocalRegistry) (selfAgent : String)
    (started : Bool) (m : Message) : Except PyErr (List String) :=
  if ¬ started then .error .runtimeError
  else
    let targets :=
      if pyTruthy m.recipient then [m.recipient.getD ""]
      else if m.topics ≠ [] then
        let subs := getSubscribersForTopics reg (m.topics.map (·.namespace_))
        if subs = [] then reg.queues else subs
      else reg.queues
    .ok (targets.filter
      (fun a => (a ≠ selfAgent ∨ pyTruthy m.recipient) ∧ a ∈ reg.queues))

/-! ## TCP transport (`converge/network/transport/tcp.py`)

`TcpTransport` keeps no started flag at all: `start()` only creates the
listening server, and `send` never consults it.  `send` reads its destination
from the first topic whose namespace is `"transport.tcp"`; with no (truthy)
destination it silently returns, and otherwise it attempts a pooled
connection and a framed write inside a `try/except` that swallows every
exception.  The model records which of those outcomes `send` takes. -/

/-- What a call to `TcpTransport.send` does. -/
inductive TcpSendOutcome where
  | dropped : TcpSendOutcome
  | attempted : AVal → AVal → TcpSendOutcome
  deriving DecidableEq, Repr

/-- The `for topic in message.topics: if topic.namespace == "transport.tcp"`
scan (first match wins). -/
def findTcpTopic : List Topic → Option Topic
  | [] => none
  | t :: rest =>
    if t.namespace_ = "transport.tcp" then some t else findTcpTopic rest

/-- Python truthiness of a scalar attribute value: `""` and `0` are falsy. -/
def AVal.truthy : AVal → Bool
  | .s x => x ≠ ""
  | .i n => n ≠ 0

/-- `TcpTransport.send`: no started check exists; a missing or falsy
`host`/`port` returns silently (`.dropped`), anything else attempts the
framed write (`.attempted`), with all I/O errors swallowed.  In particular
the function never raises. -/
def TcpTransport.send (m : Message) : Except PyErr TcpSendOutcome :=
  let host := (findTcpTopic m.topics).bind (fun t => dget t.attributes "host")
  let port := (findTcpTopic m.topics).bind (fun t => dget t.attributes "port")
  match host, port with
  | some h, some p =>
    if h.truthy ∧ p.truthy then .ok (.attempted h p) else .ok .dropped
  | _, _ => .ok .dropped

/-! ## Executor dispatch of `SendMessage`
(`converge/runtime/executor.py` lines 158-165, `converge/network/network.py`
lines 64-65, `converge/runtime/loop.py` lines 317-323)

Only the `SendMessage`-relevant behaviour is modelled: the executor's other
decision branches do not touch the transport.  The state threaded through is
the list of messages the transport's `send` has received, in order. -/

/-- The decisions relevant to message dispatch: `SendMessage` carries a
message; every other built-in or custom decision variant is opaque here
because none of them reaches `transport.send`. -/
inductive Decision where
  | sendMessage : Message → Decision
  | other : String → Decision

/-- `AgentNetwork.send`: forwards the message to `transport.send` unchanged.
The transport's received-message list is the state. -/
def AgentNetwork.send (sent : List Message) (m : Message) : List Message :=
  sent ++ [m]

/-- The `SendMessage` branch of `StandardExecutor.execute` with a configured
network: `await self.network.send(decision.message)` — the decision's message
is handed over exactly as it is; the executor holds no identity and performs
no signing. -/
def StandardExecutor.execute (sent : List Message) :
    List Decision → List Message
  | [] => sent
  | .sendMessage m :: rest =>
      StandardExecutor.execute (AgentNetwork.send sent m) rest
  | .other _ :: rest => StandardExecutor.execute sent rest

/-- `AgentRuntime._execute_decision_fallback` (the legacy path taken only when
no executor is configured): an unsigned message decision is first signed with
the agent's identity (`agent.sign_message`, i.e. `Message.sign`), then handed
to `transport.send`. -/
def executeDecisionFallback (agentIdentity : Identity) (sent : List Message)
    (m : Message) : Except PyErr (List Message) :=
  match m.signature with
  | none =>
    match m.sign agentIdentity with
    | .error e => .error e
    | .ok m2 => .ok (sent ++ [m2])
  | some _ => .ok (sent ++ [m])

/-! ## Dictionary, set and key lemmas -/

theorem dget_dput_self {α : Type} (l : List (String × α)) (k : String) (v : α) :
    dget (dput l k v) k = some v := by
  induction l with
  | nil => simp [dput, dget]
  | cons p rest ih =>
    by_cases h : p.1 = k
    · simp [dput, dget, h]
    · simp [dput, dget, h, ih]

theorem dget_dput_ne {α : Type} (l : List (String × α)) (k k' : String) (v : α)
    (h : k' ≠ k) : dget (dput l k v) k' = dget l k' := by
  have hkk : ¬ (k = k') := fun hh => h hh.symm
  induction l with
  | nil => simp [dput, dget, hkk]
  | cons p rest ih =>
    by_cases hk : p.1 = k
    · simp [dput, dget, hk, hkk]
    · by_cases hk' : p.1 = k'
      · rw [show dput (p :: rest) k v = (p.1, p.2) :: dput rest k v from by
          simp [dput, hk]]
        simp [dget, hk']
      · simp [dput, dget, hk, hk', ih]

theorem mem_sadd_iff (l : List String) (x y : String) :
    y ∈ sadd l x ↔ y ∈ l ∨ y = x := by
  by_cases h : x ∈ l
  · simp [sadd, h]
    intro hy; subst hy; exact h
  · simp [sadd, h]

theorem not_mem_sdiscard_self (l : List String) (x : String) :
    x ∉ sdiscard l x := by
  simp [sdiscard]

theorem mem_sdiscard_iff (l : List String) (x y : String) :
    y ∈ sdiscard l x ↔ y ∈ l ∧ y ≠ x := by
  simp [sdiscard]

theorem taskKey_inj (a b : String) (h : taskKey a = taskKey b) : a = b := by
  have hd : (taskKey a).data = (taskKey b).data := by rw [h]
  simp only [taskKey, String.data_append] at hd
  exact String.ext (by simpa using hd)

theorem MemoryStore.get_put_self {α : Type} (s : MemoryStore α) (k : String)
    (v : Option α) : (s.put k v).get k = v := by
  simp [MemoryStore.get, MemoryStore.put, dget_dput_self]

theorem MemoryStore.get_put_ne {α : Type} (s : MemoryStore α) (k k' : String)
    (v : Option α) (h : k' ≠ k) : (s.put k v).get k' = s.get k' := by
  simp [MemoryStore.get, MemoryStore.put, dget_dput_ne _ _ _ _ h]

/-- The task a `TaskManager` can see under an id: the in-memory cache first,
then the store under `task:<id>` — "exists in memory or loadable from the
store". -/
def TaskManager.view (tm : TaskManager) (task_id : String) : Option Task :=
  match dget tm.tasks task_id with
  | some t => some t
  | none => tm.store.get (taskKey task_id)

/-! ## Concrete example data used by witnesses and counterexamples -/

/-- An unsigned message (all optional fields at their defaults). -/
def mW6 : Message :=
  { id := "m6", sender := "", recipient := none, topics := [], payload := [],
    task_id := none, timestamp := 0, signature := none }

/-- A registry with two registered agents and no subscriptions. -/
def regW7 : LocalRegistry := { queues := ["A", "B"], topic_subscriptions := [] }

/-- A message addressed by its sender to itself. -/
def mW7a : Message :=
  { id := "m7a", sender := "A", recipient := some "A", topics := [],
    payload := [], task_id := none, timestamp := 0, signature := none }

/-- A bare broadcast message: no recipient, no topics. -/
def mW7b : Message :=
  { id := "m7b", sender := "A", recipient := none, topics := [], payload := [],
    task_id := none, timestamp := 0, signature := none }

/-- A message with no `transport.tcp` topic. -/
def mW8 : Message :=
  { id := "m8", sender := "A", recipient := none, topics := [], payload := [],
    task_id := none, timestamp := 0, signature := none }

/-- A message with a two-entry payload. -/
def mW9 : Message :=
  { id := "m9", sender := "s", recipient := none, topics := [],
    payload := [("x", .int 1), ("y", .str "v")], task_id := none,
    timestamp := 3, signature := none }

def keyW9 : List Nat := List.replicate 32 0

def key2W9 : List Nat := List.replicate 32 1

def nonceW9 : List Nat := List.replicate 12 9

/-! ## Claim C10 — `put_if_absent` over the base-class default -/

/-- C10: with the base-class `put_if_absent` over `MemoryStore` (which does
not override it), the call returns `False` and leaves the store unchanged
exactly when `get(key)` is non-`None`; hence a key whose stored value is
`None` itself is treated as absent: it is overwritten and `True` returned. -/
theorem put_if_absent_absent_iff {α : Type} (s : MemoryStore α) (k : String)
    (v : Option α) :
    (((s.put_if_absent k v).1 = false ∧ (s.put_if_absent k v).2 = s) ↔
      (s.get k).isSome = true) ∧
    (dget s.data k = some none →
      (s.put_if_absent k v).1 = true ∧ (s.put_if_absent k v).2 = s.put k v) := by
  constructor
  · by_cases h : (s.get k).isSome = true
    · simp [MemoryStore.put_if_absent, h]
    · simp [MemoryStore.put_if_absent, h]
  · intro h
    have hg : s.get k = none := by simp [MemoryStore.get, h]
    simp [MemoryStore.put_if_absent, hg]

/-- C10 witness: a store holding `None` under `"k"`; `put_if_absent`
overwrites it and returns `True`. -/
theorem put_if_absent_absent_iff_witness :
    ((MemoryStore.mk [("k", (none : Option Nat))]).put_if_absent "k" (some 7)).1
      = true ∧
    ((MemoryStore.mk [("k", (none : Option Nat))]).put_if_absent "k" (some 7)).2
      = (MemoryStore.mk [("k", (none : Option Nat))]).put "k" (some 7) :=
  (put_if_absent_absent_iff (MemoryStore.mk [("k", (none : Option Nat))]) "k"
    (some 7)).2 (by decide)

/-! ## Claim C9 — payload encryption round trip -/

/-- C9: for any payload and 32-byte key, `decrypt_payload(k)` after
`encrypt_payload(k)` restores the original message; decryption under any
other 32-byte key fails with the GCM authentication error; a key of any other
length raises `ValueError` (on encryption and on decryption of an encrypted
payload); and `decrypt_payload` of a message without the `_encrypted` payload
key returns the same message for any key. -/
theorem encrypt_decrypt_roundtrip (m : Message) (key key2 bad nonce : List Nat)
    (hk : key.length = 32) (hk2 : key2.length = 32) (hne : key2 ≠ key)
    (hbad : bad.length ≠ 32) :
    m.encrypt_payload key nonce =
      .ok { m with payload := [("_encrypted", PVal.encblob nonce key m.payload)] } ∧
    Message.decrypt_payload
      { m with payload := [("_encrypted", PVal.encblob nonce key m.payload)] } key
      = .ok m ∧
    Message.decrypt_payload
      { m with payload := [("_encrypted", PVal.encblob nonce key m.payload)] } key2
      = .error .invalidTag ∧
    m.encrypt_payload bad nonce = .error .valueError ∧
    Message.decrypt_payload
      { m with payload := [("_encrypted", PVal.encblob nonce key m.payload)] } bad
      = .error .valueError ∧
    (dget m.payload "_encrypted" = none →
      ∀ anyKey, m.decrypt_payload anyKey = .ok m) := by
  have hkey2 : ¬ (key = key2) := fun hh => hne hh.symm
  refine ⟨?_, ?_, ?_, ?_, ?_, ?_⟩
  · simp [Message.encrypt_payload, symEncrypt, hk]
  · simp [Message.decrypt_payload, dget, symDecrypt, hk]
  · simp [Message.decrypt_payload, dget, symDecrypt, hk2, hkey2]
  · simp [Message.encrypt_payload, symEncrypt, hbad]
  · simp [Message.decrypt_payload, dget, symDecrypt, hbad]
  · intro h anyKey
    simp [Message.decrypt_payload, h]

/-- C9 witness at a concrete message, nonce and keys. -/
theorem encrypt_decrypt_roundtrip_witness :
    mW9.encrypt_payload keyW9 nonceW9 =
      .ok { mW9 with payload := [("_encrypted", PVal.encblob nonceW9 keyW9 mW9.payload)] } ∧
    Message.decrypt_payload
      { mW9 with payload := [("_encrypted", PVal.encblob nonceW9 keyW9 mW9.payload)] }
      keyW9 = .ok mW9 ∧
    Message.decrypt_payload
      { mW9 with payload := [("_encrypted", PVal.encblob nonceW9 keyW9 mW9.payload)] }
      key2W9 = .error .invalidTag := by
  have h := encrypt_decrypt_roundtrip mW9 keyW9 key2W9 [1, 2] nonceW9
    (by decide) (by decide) (by decide) (by decide)
  exact ⟨h.1, h.2.1, h.2.2.1⟩

/-! ## Claim C8 — send before start -/

/-- C8 counterexample: the claim asks every transport to fail with a
not-started error on `send` before `start`.  The in-process transport does
(second conjunct), but `TcpTransport.send` — on a transport that was never
started (the class records no started state at all) — returns silently:
here a message with no `transport.tcp` topic is dropped without any error. -/
theorem tcp_send_unstarted_no_error :
    TcpTransport.send mW8 = .ok .dropped ∧
    LocalTransport.send { queues := [], topic_subscriptions := [] } "A" false mW8
      = .error .runtimeError := by
  constructor
  · rfl
  · simp [LocalTransport.send]

/-- C8 amended: `send` before `start` fails with the not-started
`RuntimeError` on the in-process transport; the TCP transport performs no
started check — its `send` never raises, silently dropping messages without a
truthy `transport.tcp` destination and otherwise attempting the write. -/
theorem send_before_start (reg : LocalRegistry) (selfAgent : String)
    (m mt : Message) :
    LocalTransport.send reg selfAgent false m = .error .runtimeError ∧
    (∃ o, TcpTransport.send mt = .ok o) := by
  refine ⟨by simp [LocalTransport.send], ?_⟩
  cases hh : (findTcpTopic mt.topics).bind (fun t => dget t.attributes "host") with
  | none => exact ⟨.dropped, by simp [TcpTransport.send, hh]⟩
  | some hv =>
    cases hp : (findTcpTopic mt.topics).bind (fun t => dget t.attributes "port") with
    | none => exact ⟨.dropped, by simp [TcpTransport.send, hh, hp]⟩
    | some pv =>
      by_cases htr : hv.truthy = true ∧ pv.truthy = true
      · exact ⟨.attempted hv pv, by simp [TcpTransport.send, hh, hp, htr]⟩
      · exact ⟨.dropped, by simp [TcpTransport.send, hh, hp, htr]⟩

/-! ## Claim C7 — in-process routing -/

/-- C7: on the in-process transport, a send with a (truthy) recipient
delivers to exactly that fingerprint's queue — to it even when it is the
sender's own — and to no other; with topics but no subscribers, or with
neither recipient nor topics, it delivers to every registered queue except
the sender's own. -/
theorem local_send_routing (reg : LocalRegistry) (selfAgent : String)
    (m : Message) :
    (∀ r, m.recipient = some r → r ≠ "" →
      LocalTransport.send reg selfAgent true m =
        .ok (if r ∈ reg.queues then [r] else [])) ∧
    (pyTruthy m.recipient = false → m.topics ≠ [] →
      getSubscribersForTopics reg (m.topics.map (fun t => t.namespace_)) = [] →
      LocalTransport.send reg selfAgent true m =
        .ok (reg.queues.filter (fun a => a ≠ selfAgent))) ∧
    (pyTruthy m.recipient = false → m.topics = [] →
      LocalTransport.send reg selfAgent true m =
        .ok (reg.queues.filter (fun a => a ≠ selfAgent))) := by
  refine ⟨?_, ?_, ?_⟩
  · intro r hr hne
    have htr : pyTruthy (some r) = true := by simp [pyTruthy, hne]
    by_cases hq : r ∈ reg.queues
    · simp [LocalTransport.send, hr, htr, hq, hne, pyTruthy, List.filter]
    · simp [LocalTransport.send, hr, htr, hq, hne, pyTruthy, List.filter]
  · intro htr htop hsub
    have hfilter : List.filter
        (fun a => !decide (a = selfAgent) && decide (a ∈ reg.queues)) reg.queues
        = List.filter (fun a => !decide (a = selfAgent)) reg.queues := by
      apply List.filter_congr
      intro a ha
      simp [ha]
    simp [LocalTransport.send, htr, htop, hsub, hfilter]
  · intro htr htop
    have hfilter : List.filter
        (fun a => !decide (a = selfAgent) && decide (a ∈ reg.queues)) reg.queues
        = List.filter (fun a => !decide (a = selfAgent)) reg.queues := by
      apply List.filter_congr
      intro a ha
      simp [ha]
    simp [LocalTransport.send, htr, htop, hfilter]

/-- C7 witness: registry `{A, B}`; a self-addressed point-to-point message is
delivered to the sender's own queue only, and a bare broadcast reaches every
queue but the sender's. -/
theorem local_send_routing_witness :
    LocalTransport.send regW7 "A" true mW7a =
      .ok (if "A" ∈ regW7.queues then ["A"] else []) ∧
    LocalTransport.send regW7 "A" true mW7b =
      .ok (regW7.queues.filter (fun a => a ≠ "A")) :=
  ⟨(local_send_routing regW7 "A" mW7a).1 "A" rfl (by decide),
   (local_send_routing regW7 "A" mW7b).2.2 rfl rfl⟩

/-! ## Claim C6 — executor dispatch of `SendMessage` -/

/-- C6 counterexample: the claim says the executor signs an unsigned
`SendMessage` message before handing it to `transport.send`, so the transport
never receives an unsigned message.  In fact `StandardExecutor.execute`
(which holds no identity) hands `decision.message` to the transport exactly
as it is: dispatching the unsigned `mW6` makes the transport receive `mW6`
itself, still unsigned. -/
theorem executor_sends_unsigned_cex :
    StandardExecutor.execute [] [.sendMessage mW6] = [mW6] ∧
    mW6.signature = none := ⟨rfl, rfl⟩

/-- C6 amended: the `StandardExecutor` forwards a `SendMessage` decision's
message to the transport unchanged (signed or not); it is the legacy fallback
path of the runtime loop — used only when no executor is configured — that
signs an unsigned message with the agent's identity before `transport.send`,
so only that path guarantees the transport a signed message. -/
theorem executor_forwards_fallback_signs (agent : Identity) (k : Nat)
    (hpk : agent.private_key = some k) (sent : List Message) (m : Message) :
    StandardExecutor.execute sent [.sendMessage m] = sent ++ [m] ∧
    (∃ m2, executeDecisionFallback agent sent m = .ok (sent ++ [m2]) ∧
      m2.signature ≠ none) := by
  refine ⟨rfl, ?_⟩
  cases hs : m.signature with
  | none =>
    have hgoal : executeDecisionFallback agent sent m = .ok (sent ++ [{ m with sender := agent.fingerprint, signature := some ⟨k, serializeForSigning m⟩ }]) := by
      simp [executeDecisionFallback, hs, Message.sign, hpk]
    exact ⟨_, hgoal, by simp⟩
  | some sg => exact ⟨m, by simp [executeDecisionFallback, hs], by simp [hs]⟩

/-- C6 amended witness at a concrete agent and unsigned message. -/
theorem executor_forwards_fallback_signs_witness :
    StandardExecutor.execute [] [.sendMessage mW6] = [] ++ [mW6] ∧
    (∃ m2, executeDecisionFallback (Identity.generate 0) [] mW6 =
      .ok ([] ++ [m2]) ∧ m2.signature ≠ none) :=
  executor_forwards_fallback_signs (Identity.generate 0) 0 rfl [] mW6

/-! ## Claim C3 — determinism of the signing digest -/

/-- Logical equality of payloads as maps: the same value under every key,
regardless of entry order. -/
def payloadEqvAsMap (p q : List (String × PVal)) : Prop :=
  ∀ k, dget p k = dget q k

/-- Two messages whose payloads hold the same two entries in opposite
insertion orders. -/
def mC3a : Message :=
  { id := "m", sender := "s", recipient := none, topics := [],
    payload := [("a", .int 0), ("b", .int 1)], task_id := none,
    timestamp := 0, signature := none }

def mC3b : Message := { mC3a with payload := [("b", .int 1), ("a", .int 0)] }

/-- C3 counterexample: `_serialize_for_signing` calls `msgpack.packb` on the
payload dict as it is, so two messages that are logically equal — equal on
every field, payload equal **as a map** — but whose payload dicts were built
in different insertion orders serialize to different bytes (and no
lexicographic reordering of keys takes place). -/
theorem serialize_payload_order_cex :
    payloadEqvAsMap mC3a.payload mC3b.payload ∧
    mC3a.id = mC3b.id ∧ mC3a.sender = mC3b.sender ∧
    mC3a.recipient = mC3b.recipient ∧ mC3a.topics = mC3b.topics ∧
    mC3a.task_id = mC3b.task_id ∧ mC3a.timestamp = mC3b.timestamp ∧
    serializeForSigning mC3a ≠ serializeForSigning mC3b := by
  refine ⟨?_, rfl, rfl, rfl, rfl, rfl, rfl, by decide⟩
  intro k
  by_cases ha : ("a" : String) = k
  · rw [← ha]; rfl
  · by_cases hb : ("b" : String) = k
    · rw [← hb]; rfl
    · show dget mC3a.payload k = dget mC3b.payload k
      simp [mC3a, mC3b, dget, ha, hb]

/-- C3 amended: the signing digest is deterministic over the logical message
content with the payload taken as an **ordered** key-value list: two messages
equal on id, sender, recipient, topics, payload (same entries in the same
order at every depth), task_id and timestamp — their signatures may differ —
produce byte-identical serialization.  Payload maps are encoded in insertion
order; no lexicographic ordering is applied. -/
theorem serialize_deterministic_ordered (m1 m2 : Message)
    (h1 : m1.id = m2.id) (h2 : m1.sender = m2.sender)
    (h3 : m1.recipient = m2.recipient) (h4 : m1.topics = m2.topics)
    (h5 : m1.payload = m2.payload) (h6 : m1.task_id = m2.task_id)
    (h7 : m1.timestamp = m2.timestamp) :
    serializeForSigning m1 = serializeForSigning m2 := by
  simp [serializeForSigning, h1, h2, h3, h4, h5, h6, h7]

/-- C3 amended witness: a message and a copy with a different signature
serialize identically. -/
theorem serialize_deterministic_ordered_witness :
    serializeForSigning mC3a =
      serializeForSigning { mC3a with signature := some ⟨0, []⟩ } :=
  serialize_deterministic_ordered mC3a
    { mC3a with signature := some ⟨0, []⟩ } rfl rfl rfl rfl rfl rfl rfl

/-! ## Claim C4 — sign / verify round trip -/

/-- A message with the default empty sender. -/
def mC4 : Message :=
  { id := "m", sender := "", recipient := none, topics := [], payload := [],
    task_id := none, timestamp := 0, signature := none }

/-- The same message with its sender preset to the signer's fingerprint. -/
def mC4m : Message := { mC4 with sender := (Identity.generate 0).fingerprint }

/-- C4 counterexample: `sign` serializes the message with its **current**
sender and only afterwards replaces `sender` by the identity's fingerprint,
while `verify` re-serializes the (replaced-sender) message — so for a message
whose sender is not already the signer's fingerprint (here the default empty
sender), `verify(sign(M, id), id.public_key)` is false, not true. -/
theorem sign_verify_roundtrip_cex :
    Except.map (fun m2 => m2.verify (Identity.generate 0).public_key)
      (mC4.sign (Identity.generate 0)) = .ok false := by rfl

/-- C4 amended: for a message whose `sender` already equals the signing
identity's fingerprint (so the sender replacement in `sign` does not change
the serialized content), signing and then verifying under the signer's public
key succeeds; and a message signed by one identity never verifies under a
distinct identity's public key. -/
theorem sign_verify_roundtrip (n n2 : Nat) (m : Message) :
    (m.sender = (Identity.generate n).fingerprint →
      Except.map (fun m2 => m2.verify (Identity.generate n).public_key)
        (m.sign (Identity.generate n)) = .ok true) ∧
    (n2 ≠ n →
      Except.map (fun m2 => m2.verify (Identity.generate n2).public_key)
        (m.sign (Identity.generate n)) = .ok false) := by
  constructor
  · intro hs
    have hser : serializeForSigning
        { m with sender := (Identity.generate n).fingerprint,
                 signature := some ⟨n, serializeForSigning m⟩ }
        = serializeForSigning m := by
      simp [serializeForSigning, hs]
    simp [Message.sign, Identity.generate, Message.verify, Except.map] at hser ⊢
    simp [hser, ed25519Verify]
  · intro hne
    have hnn : ¬ (n = n2) := fun hh => hne hh.symm
    simp [Message.sign, Identity.generate, Message.verify, Except.map,
      ed25519Verify, hnn]

/-- C4 amended witness: keypair 0 with a matching-sender message verifies;
keypair 1's public key rejects it. -/
theorem sign_verify_roundtrip_witness :
    Except.map (fun m2 => m2.verify (Identity.generate 0).public_key)
      (mC4m.sign (Identity.generate 0)) = .ok true ∧
    Except.map (fun m2 => m2.verify (Identity.generate 1).public_key)
      (mC4m.sign (Identity.generate 0)) = .ok false :=
  ⟨(sign_verify_roundtrip 0 1 mC4m).1 rfl,
   (sign_verify_roundtrip 0 1 mC4m).2 (by decide)⟩

/-! ## Claim C1 — exclusive claim -/

/-- C1: `claim(agent_id, task_id)` returns true iff the task exists — in
memory or loadable from the store — and is PENDING; on success the task is
ASSIGNED to the agent with `claimed_at` set to the monotonic reading and its
id leaves the pending index (in cache and store alike); on failure the task
as the manager sees it (state, assignment, every field) is unchanged. -/
theorem claim_iff_pending (tm : TaskManager) (a id : String) (now : Int) :
    ((tm.claim a id now).1 = true ↔
      ∃ t, tm.view id = some t ∧ t.state = .pending) ∧
    (∀ t, tm.view id = some t → t.state = .pending →
      dget (tm.claim a id now).2.tasks id =
        some { t with state := .assigned, assigned_to := some a,
                      claimed_at := some now } ∧
      id ∉ (tm.claim a id now).2.pending_task_ids ∧
      (tm.claim a id now).2.store.get (taskKey t.id) =
        some { t with state := .assigned, assigned_to := some a,
                      claimed_at := some now }) ∧
    ((tm.claim a id now).1 = false →
      (tm.claim a id now).2.view id = tm.view id) := by
  cases hmem : dget tm.tasks id with
  | some t0 =>
    have hview : tm.view id = some t0 := by simp [TaskManager.view, hmem]
    by_cases hp : t0.state = .pending
    · refine ⟨?_, ?_, ?_⟩
      · constructor
        · intro _; exact ⟨t0, hview, hp⟩
        · intro _; simp [TaskManager.claim, hmem, TaskManager.claimGo, hp]
      · intro t hv hps
        have ht : t = t0 := by
          rw [hview] at hv; exact (Option.some_inj.mp hv).symm
        subst ht
        refine ⟨?_, ?_, ?_⟩
        · simp [TaskManager.claim, hmem, TaskManager.claimGo, hp, dget_dput_self]
        · simp only [TaskManager.claim, hmem, TaskManager.claimGo, hp]
          simp only [ne_eq, not_true_eq_false, if_false]
          exact not_mem_sdiscard_self _ _
        · simp [TaskManager.claim, hmem, TaskManager.claimGo, hp,
            MemoryStore.get_put_self]
      · intro hfalse
        simp [TaskManager.claim, hmem, TaskManager.claimGo, hp] at hfalse
    · have hclaim : tm.claim a id now = (false, tm) := by
        simp [TaskManager.claim, hmem, TaskManager.claimGo, hp]
      refine ⟨?_, ?_, ?_⟩
      · rw [hclaim]
        simp only [Bool.false_eq_true, false_iff]
        rintro ⟨t, hv, hps⟩
        rw [hview] at hv
        exact hp ((Option.some_inj.mp hv) ▸ hps)
      · intro t hv hps
        rw [hview] at hv
        exact absurd ((Option.some_inj.mp hv) ▸ hps) hp
      · intro _; rw [hclaim]
  | none =>
    cases hst : tm.store.get (taskKey id) with
    | some t0 =>
      have hview : tm.view id = some t0 := by simp [TaskManager.view, hmem, hst]
      by_cases hp : t0.state = .pending
      · refine ⟨?_, ?_, ?_⟩
        · constructor
          · intro _; exact ⟨t0, hview, hp⟩
          · intro _
            simp [TaskManager.claim, hmem, hst, TaskManager.claimGo, hp]
        · intro t hv hps
          have ht : t = t0 := by
            rw [hview] at hv; exact (Option.some_inj.mp hv).symm
          subst ht
          refine ⟨?_, ?_, ?_⟩
          · simp [TaskManager.claim, hmem, hst, TaskManager.claimGo, hp,
              dget_dput_self]
          · simp only [TaskManager.claim, hmem, hst, TaskManager.claimGo, hp]
            simp only [ne_eq, not_true_eq_false, if_false]
            exact not_mem_sdiscard_self _ _
          · simp [TaskManager.claim, hmem, hst, TaskManager.claimGo, hp,
              MemoryStore.get_put_self]
        · intro hfalse
          simp [TaskManager.claim, hmem, hst, TaskManager.claimGo, hp] at hfalse
      · have hclaim : tm.claim a id now =
            (false, { tm with tasks := dput tm.tasks id t0 }) := by
          simp [TaskManager.claim, hmem, hst, TaskManager.claimGo, hp]
        refine ⟨?_, ?_, ?_⟩
        · rw [hclaim]
          simp only [Bool.false_eq_true, false_iff]
          rintro ⟨t, hv, hps⟩
          rw [hview] at hv
          exact hp ((Option.some_inj.mp hv) ▸ hps)
        · intro t hv hps
          rw [hview] at hv
          exact absurd ((Option.some_inj.mp hv) ▸ hps) hp
        · intro _
          rw [hclaim, hview]
          simp [TaskManager.view, dget_dput_self]
    | none =>
      have hview : tm.view id = none := by simp [TaskManager.view, hmem, hst]
      have hclaim : tm.claim a id now = (false, tm) := by
        simp [TaskManager.claim, hmem, hst]
      refine ⟨?_, ?_, ?_⟩
      · rw [hclaim]
        simp only [Bool.false_eq_true, false_iff]
        rintro ⟨t, hv, _⟩
        rw [hview] at hv
        exact Option.noConfusion hv
      · intro t hv _
        rw [hview] at hv
        exact Option.noConfusion hv
      · intro _; rw [hclaim]

/-- An empty task manager over an empty memory store. -/
def tmEmptyW : TaskManager := { store := ⟨[]⟩, tasks := [], pending_task_ids := [] }

/-- A freshly submitted pending task. -/
def tW1 : Task := { id := "t1" }

def tmW1 : TaskManager := (tmEmptyW.submit tW1).2

/-- C1 witness: claiming a freshly submitted pending task assigns it and
clears it from the pending index. -/
theorem claim_iff_pending_witness :
    dget ((tmW1.claim "a" "t1" 5).2).tasks "t1" =
      some { tW1 with state := .assigned, assigned_to := some "a",
                      claimed_at := some 5 } ∧
    "t1" ∉ (tmW1.claim "a" "t1" 5).2.pending_task_ids := by
  have h := (claim_iff_pending tmW1 "a" "t1" 5).2.1 tW1 (by rfl) rfl
  exact ⟨h.1, h.2.1⟩

/-! ## Well-formedness and the release-loop lemmas -/

/-- Every cached task sits in `tm.tasks` under its own id (every
`TaskManager` operation maintains this: `submit` keys by `task.id`, каждая
mutation keeps the `id` field). -/
def memWF (tm : TaskManager) : Prop :=
  ∀ k t, dget tm.tasks k = some t → t.id = k

/-- Every store-resident task sits under the key `task:<its id>` (every
persisting operation writes `f"task:{task.id}"`). -/
def storeWF (tm : TaskManager) : Prop :=
  ∀ k t, tm.store.get k = some t → k = taskKey t.id

/-- The shape a task takes when a claim lease is released. -/
def releasedTask (t : Task) : Task :=
  { t with state := .pending, assigned_to := none, claimed_at := none }

/-- The conditions under which neither release loop releases a task. -/
def taskNoRel (now : Int) (t : Task) : Prop :=
  t.state ≠ .assigned ∨ t.claimed_at = none ∨ ttlOf t = none ∨
  (∃ c d, t.claimed_at = some c ∧ ttlOf t = some d ∧ now - c < d)

theorem pyStartsWith_taskKey (s : String) :
    pyStartsWith (taskKey s) "task:" = true := by
  simp only [pyStartsWith, taskKey, String.data_append]
  exact List.isPrefixOf_iff_prefix.mpr (List.prefix_append _ _)

theorem pyDrop_taskKey (s : String) : pyDrop (taskKey s) 5 = s := by
  apply String.ext
  simp only [pyDrop, taskKey, String.data_append]
  have h5 : ("task:".data).length = 5 := rfl
  rw [← h5, List.drop_left]

theorem eq_taskKey_of_startsWith (K : String)
    (h : pyStartsWith K "task:" = true) : K = taskKey (pyDrop K 5) := by
  have hp : "task:".data <+: K.data := by
    simpa [pyStartsWith, List.isPrefixOf_iff_prefix] using h
  obtain ⟨t, ht⟩ := hp
  apply String.ext
  simp only [taskKey, pyDrop, String.data_append]
  rw [← ht]
  have h5 : ("task:".data).length = 5 := rfl
  rw [show (("task:".data ++ t).drop 5) = t from by rw [← h5, List.drop_left]]

theorem taskKey_ne (a b : String) (h : a ≠ b) : taskKey a ≠ taskKey b :=
  fun hh => h (taskKey_inj a b hh)

theorem dget_some_mem {α : Type} (l : List (String × α)) (k : String) (v : α)
    (h : dget l k = some v) : k ∈ dkeys l := by
  induction l with
  | nil => simp [dget] at h
  | cons p rest ih =>
    by_cases hk : p.1 = k
    · simp [dkeys, hk]
    · simp [dget, hk] at h
      simp [dkeys]
      exact Or.inr (by simpa [dkeys] using ih h)

theorem exists_first_split {α : Type} [DecidableEq α] (a : α) (l : List α)
    (h : a ∈ l) : ∃ s t, l = s ++ a :: t ∧ a ∉ s := by
  induction l with
  | nil => cases h
  | cons b rest ih =>
    by_cases hb : b = a
    · exact ⟨[], rest, by rw [hb]; rfl, by simp⟩
    · have hmem : a ∈ rest := by
        cases h with
        | head => exact absurd rfl hb
        | tail _ h2 => exact h2
      obtain ⟨s, t, hst, hns⟩ := ih hmem
      exact ⟨b :: s, t, by rw [hst]; rfl, by
        simp only [List.mem_cons, not_or]
        exact ⟨fun hh => hb hh.symm, hns⟩⟩

theorem storeWF_put (s : MemoryStore Task) (t : Task)
    (h : ∀ k t2, s.get k = some t2 → k = taskKey t2.id) :
    ∀ k t2, (s.put (taskKey t.id) (some t)).get k = some t2 →
      k = taskKey t2.id := by
  intro k t2 hk
  by_cases he : k = taskKey t.id
  · subst he
    rw [MemoryStore.get_put_self] at hk
    cases hk
    rfl
  · rw [MemoryStore.get_put_ne _ _ _ _ he] at hk
    exact h k t2 hk

theorem memWF_dput (tasks : List (String × Task)) (tid : String) (t : Task)
    (h : ∀ k t2, dget tasks k = some t2 → t2.id = k) (hid : t.id = tid) :
    ∀ k t2, dget (dput tasks tid t) k = some t2 → t2.id = k := by
  intro k t2 hk
  by_cases he : k = tid
  · subst he
    rw [dget_dput_self] at hk
    cases hk
    exact hid
  · rw [dget_dput_ne _ _ _ _ he] at hk
    exact h k t2 hk

/-- Frame for one memory-loop iteration at a different id: nothing about `id`
changes. -/
theorem relMemStep_frame (now : Int) (st : TaskManager × List String)
    (tid id : String) (hne : tid ≠ id)
    (hWFm : memWF st.1) (hWFs : storeWF st.1) :
    dget (relMemStep now st tid).1.tasks id = dget st.1.tasks id ∧
    (relMemStep now st tid).1.store.get (taskKey id) =
      st.1.store.get (taskKey id) ∧
    (id ∈ (relMemStep now st tid).1.pending_task_ids ↔
      id ∈ st.1.pending_task_ids) ∧
    (id ∈ (relMemStep now st tid).2 ↔ id ∈ st.2) ∧
    memWF (relMemStep now st tid).1 ∧ storeWF (relMemStep now st tid).1 := by
  cases hget : dget st.1.tasks tid with
  | none => simp [relMemStep, hget, hWFm, hWFs]
  | some task =>
    have htaskid : task.id = tid := hWFm tid task hget
    cases hca : task.claimed_at with
    | none => simp [relMemStep, hget, hca, hWFm, hWFs]
    | some c =>
      by_cases hstate : task.state = TaskState.assigned
      · cases httl : ttlOf task with
        | none => simp [relMemStep, hget, hca, hstate, httl, hWFm, hWFs]
        | some d =>
          by_cases hexp : now - c ≥ d
          · have hstep : relMemStep now st tid = releaseNow st.1 st.2 tid task := by
              simp [relMemStep, hget, hca, hstate, httl, hexp]
            have hkey : taskKey id ≠ taskKey task.id := by
              rw [htaskid]; exact taskKey_ne id tid (Ne.symm hne)
            rw [hstep]
            refine ⟨?_, ?_, ?_, ?_, ?_, ?_⟩
            · simp [releaseNow, dget_dput_ne _ _ _ _ (Ne.symm hne)]
            · simp [releaseNow, MemoryStore.get_put_ne _ _ _ _ hkey]
            · simp [releaseNow, mem_sadd_iff]
              intro hh
              exact absurd hh.symm hne
            · simp [releaseNow]
              intro hh
              exact absurd hh.symm hne
            · intro k t2 hk
              simp only [releaseNow] at hk
              exact memWF_dput st.1.tasks tid _ hWFm (by simp [htaskid]) k t2 hk
            · intro k t2 hk
              simp only [releaseNow] at hk
              exact storeWF_put st.1.store
                { task with state := TaskState.pending, assigned_to := none,
                            claimed_at := none } hWFs k t2 hk
          · simp [relMemStep, hget, hca, hstate, httl, hexp, hWFm, hWFs]
      · simp [relMemStep, hget, hca, hstate, hWFm, hWFs]

/-- One memory-loop iteration at an id whose task cannot be released is a
no-op. -/
theorem relMemStep_skip (now : Int) (st : TaskManager × List String)
    (id : String)
    (hnr : ∀ t, dget st.1.tasks id = some t → taskNoRel now t) :
    relMemStep now st id = st := by
  cases hget : dget st.1.tasks id with
  | none => simp [relMemStep, hget]
  | some task =>
    rcases hnr task hget with hs | hc | ht | ⟨c, d, hc, hd, hlt⟩
    · cases hca : task.claimed_at with
      | none => simp [relMemStep, hget, hca]
      | some c => simp [relMemStep, hget, hca, hs]
    · simp [relMemStep, hget, hc]
    · cases hca : task.claimed_at with
      | none => simp [relMemStep, hget, hca]
      | some c =>
        by_cases hstate : task.state = TaskState.assigned
        · simp [relMemStep, hget, hca, hstate, ht]
        · simp [relMemStep, hget, hca, hstate]
    · by_cases hstate : task.state = TaskState.assigned
      · simp [relMemStep, hget, hc, hstate, hd, not_le.mpr hlt]
      · simp [relMemStep, hget, hc, hstate]

/-- Master lemma for the memory loop: as long as every visit of `id` finds a
task that cannot be released, nothing about `id` changes across the fold. -/
theorem relMemFold_safe (now : Int) (tids : List String)
    (st : TaskManager × List String) (id : String)
    (hWFm : memWF st.1) (hWFs : storeWF st.1)
    (hsafe : id ∈ tids → ∀ t, dget st.1.tasks id = some t → taskNoRel now t) :
    dget (tids.foldl (relMemStep now) st).1.tasks id = dget st.1.tasks id ∧
    (tids.foldl (relMemStep now) st).1.store.get (taskKey id) =
      st.1.store.get (taskKey id) ∧
    (id ∈ (tids.foldl (relMemStep now) st).1.pending_task_ids ↔
      id ∈ st.1.pending_task_ids) ∧
    (id ∈ (tids.foldl (relMemStep now) st).2 ↔ id ∈ st.2) ∧
    memWF (tids.foldl (relMemStep now) st).1 ∧
    storeWF (tids.foldl (relMemStep now) st).1 := by
  induction tids generalizing st with
  | nil => exact ⟨rfl, rfl, Iff.rfl, Iff.rfl, hWFm, hWFs⟩
  | cons tid rest ih =>
    by_cases hid : tid = id
    · subst hid
      have hskip : relMemStep now st tid = st :=
        relMemStep_skip now st tid (hsafe (by simp))
      rw [List.foldl_cons, hskip]
      exact ih st hWFm hWFs (fun _ => hsafe (by simp))
    · obtain ⟨f1, f2, f3, f4, f5, f6⟩ := relMemStep_frame now st tid id hid hWFm hWFs
      rw [List.foldl_cons]
      obtain ⟨g1, g2, g3, g4, g5, g6⟩ := ih (relMemStep now st tid) f5 f6
        (fun hmem t hget => hsafe (by simp [hmem]) t (f1 ▸ hget))
      exact ⟨g1.trans f1, g2.trans f2, g3.trans f3, g4.trans f4, g5, g6⟩

/-- Adding an entry keyed by a member of `S` to a cache whose keys all lie in
`S` keeps every key in `S`. -/
theorem dput_preserve_seen (tasks : List (String × Task)) (S : List String)
    (x : String) (t0 : Task)
    (hs : ∀ k t, dget tasks k = some t → k ∈ S) (hx : x ∈ S) :
    ∀ k t, dget (dput tasks x t0) k = some t → k ∈ S := by
  intro k t hk
  by_cases hkx : k = x
  · subst hkx; exact hx
  · rw [dget_dput_ne _ _ _ _ hkx] at hk
    exact hs k t hk

/-- `view` only depends on the cache entry and the store entry of the id. -/
theorem view_congr (tm2 tm : TaskManager) (id : String)
    (h1 : dget tm2.tasks id = dget tm.tasks id)
    (h2 : tm2.store.get (taskKey id) = tm.store.get (taskKey id)) :
    tm2.view id = tm.view id := by
  cases hc : dget tm.tasks id with
  | none => simp [TaskManager.view, h1, h2, hc]
  | some t => simp [TaskManager.view, h1, h2, hc]

/-- Frame for one store-loop iteration over a key that is not the id's:
nothing about `id` changes. -/
theorem relStoreStep_frame (now : Int)
    (st : TaskManager × List String × List String) (key id : String)
    (hkey : pyStartsWith key "task:" = true) (hne : key ≠ taskKey id)
    (hWFm : memWF st.1) (hWFs : storeWF st.1)
    (hseen : ∀ k t, dget st.1.tasks k = some t → k ∈ st.2.1) :
    dget (relStoreStep now st key).1.tasks id = dget st.1.tasks id ∧
    (relStoreStep now st key).1.store.get (taskKey id) =
      st.1.store.get (taskKey id) ∧
    (id ∈ (relStoreStep now st key).1.pending_task_ids ↔
      id ∈ st.1.pending_task_ids) ∧
    (id ∈ (relStoreStep now st key).2.2 ↔ id ∈ st.2.2) ∧
    (id ∈ (relStoreStep now st key).2.1 ↔ id ∈ st.2.1) ∧
    memWF (relStoreStep now st key).1 ∧ storeWF (relStoreStep now st key).1 ∧
    (∀ k t, dget (relStoreStep now st key).1.tasks k = some t →
      k ∈ (relStoreStep now st key).2.1) := by
  have hkeq : key = taskKey (pyDrop key 5) := eq_taskKey_of_startsWith key hkey
  have htidne : pyDrop key 5 ≠ id := fun hh => hne (by rw [hkeq, hh])
  by_cases hmem2 : pyDrop key 5 ∈ st.2.1
  · have hstep : relStoreStep now st key = st := by
      simp [relStoreStep, hkey, hmem2]
    rw [hstep]
    exact ⟨rfl, rfl, Iff.rfl, Iff.rfl, Iff.rfl, hWFm, hWFs, hseen⟩
  · have hss : ∀ k t, dget st.1.tasks k = some t →
        k ∈ sadd st.2.1 (pyDrop key 5) := by
      intro k t hk
      exact (mem_sadd_iff _ _ _).mpr (Or.inl (hseen k t hk))
    have hsadd : id ∈ sadd st.2.1 (pyDrop key 5) ↔ id ∈ st.2.1 := by
      rw [mem_sadd_iff]
      constructor
      · rintro (h | h)
        · exact h
        · exact absurd h.symm htidne
      · exact Or.inl
    cases hget : st.1.store.get key with
    | none =>
      have hstep : relStoreStep now st key =
          (st.1, sadd st.2.1 (pyDrop key 5), st.2.2) := by
        simp [relStoreStep, hkey, hmem2, hget]
      rw [hstep]
      exact ⟨rfl, rfl, Iff.rfl, Iff.rfl, hsadd, hWFm, hWFs, hss⟩
    | some task =>
      have htaskkey : key = taskKey task.id := hWFs key task hget
      have htaskid : task.id = pyDrop key 5 :=
        taskKey_inj _ _ (htaskkey.symm.trans hkeq)
      have hmemWF1 : memWF { st.1 with
          tasks := dput st.1.tasks (pyDrop key 5) task } := by
        intro k t hk
        exact memWF_dput st.1.tasks (pyDrop key 5) task hWFm htaskid k t hk
      have hdgetne : dget (dput st.1.tasks (pyDrop key 5) task) id =
          dget st.1.tasks id := dget_dput_ne _ _ _ _ (Ne.symm htidne)
      have hss1 : ∀ k t, dget (dput st.1.tasks (pyDrop key 5) task) k = some t →
          k ∈ sadd st.2.1 (pyDrop key 5) :=
        dput_preserve_seen _ _ _ _ hss
          ((mem_sadd_iff _ _ _).mpr (Or.inr rfl))
      cases hca : task.claimed_at with
      | none =>
        have hstep : relStoreStep now st key =
            (st.1, sadd st.2.1 (pyDrop key 5), st.2.2) := by
          simp [relStoreStep, hkey, hmem2, hget, hca]
        rw [hstep]
        exact ⟨rfl, rfl, Iff.rfl, Iff.rfl, hsadd, hWFm, hWFs, hss⟩
      | some c =>
        by_cases hstate : task.state = TaskState.assigned
        · cases httl : ttlOf task with
          | none =>
            have hstep : relStoreStep now st key =
                ({ st.1 with tasks := dput st.1.tasks (pyDrop key 5) task },
                  sadd st.2.1 (pyDrop key 5), st.2.2) := by
              simp [relStoreStep, hkey, hmem2, hget, hca, hstate, httl]
            rw [hstep]
            exact ⟨hdgetne, rfl, Iff.rfl, Iff.rfl, hsadd, hmemWF1, hWFs, hss1⟩
          | some d =>
            by_cases hexp : now - c ≥ d
            · have hstep : relStoreStep now st key =
                  ((releaseNow { st.1 with
                      tasks := dput st.1.tasks (pyDrop key 5) task }
                    st.2.2 (pyDrop key 5) task).1,
                   sadd st.2.1 (pyDrop key 5),
                   (releaseNow { st.1 with
                      tasks := dput st.1.tasks (pyDrop key 5) task }
                    st.2.2 (pyDrop key 5) task).2) := by
                simp [relStoreStep, hkey, hmem2, hget, hca, hstate, httl, hexp]
              have hkey2 : taskKey id ≠ taskKey task.id := by
                rw [htaskid]; exact taskKey_ne id (pyDrop key 5) (Ne.symm htidne)
              rw [hstep]
              refine ⟨?_, ?_, ?_, ?_, hsadd, ?_, ?_, ?_⟩
              · simp [releaseNow, dget_dput_ne _ _ _ _ (Ne.symm htidne), hdgetne]
              · simp [releaseNow, MemoryStore.get_put_ne _ _ _ _ hkey2]
              · simp [releaseNow, mem_sadd_iff]
                intro hh
                exact absurd hh.symm htidne
              · simp [releaseNow]
                intro hh
                exact absurd hh.symm htidne
              · intro k t hk
                simp only [releaseNow] at hk
                exact memWF_dput _ _ _ hmemWF1 (by simp [htaskid]) k t hk
              · intro k t hk
                simp only [releaseNow] at hk
                exact storeWF_put st.1.store
                  { task with state := TaskState.pending, assigned_to := none,
                              claimed_at := none } hWFs k t hk
              · intro k t hk
                simp only [releaseNow] at hk
                exact dput_preserve_seen _ _ _ _ hss1
                  ((mem_sadd_iff _ _ _).mpr (Or.inr rfl)) k t hk
            · have hstep : relStoreStep now st key =
                  ({ st.1 with tasks := dput st.1.tasks (pyDrop key 5) task },
                    sadd st.2.1 (pyDrop key 5), st.2.2) := by
                simp [relStoreStep, hkey, hmem2, hget, hca, hstate, httl, hexp]
              rw [hstep]
              exact ⟨hdgetne, rfl, Iff.rfl, Iff.rfl, hsadd, hmemWF1, hWFs, hss1⟩
        · have hstep : relStoreStep now st key =
              (st.1, sadd st.2.1 (pyDrop key 5), st.2.2) := by
            simp [relStoreStep, hkey, hmem2, hget, hca, hstate]
          rw [hstep]
          exact ⟨rfl, rfl, Iff.rfl, Iff.rfl, hsadd, hWFm, hWFs, hss⟩

/-- One store-loop iteration at the id's own key, when the id is already
seen or its store task cannot be released: nothing about `id`'s view, its
pending membership or the released list changes (the task may be loaded into
the cache, which preserves the view). -/
theorem relStoreStep_at_safe (now : Int)
    (st : TaskManager × List String × List String) (id : String)
    (hWFm : memWF st.1) (hWFs : storeWF st.1)
    (hseen : ∀ k t, dget st.1.tasks k = some t → k ∈ st.2.1)
    (hsafe : id ∈ st.2.1 ∨
      (∀ t, st.1.store.get (taskKey id) = some t → taskNoRel now t)) :
    TaskManager.view (relStoreStep now st (taskKey id)).1 id =
      TaskManager.view st.1 id ∧
    (id ∈ (relStoreStep now st (taskKey id)).1.pending_task_ids ↔
      id ∈ st.1.pending_task_ids) ∧
    (id ∈ (relStoreStep now st (taskKey id)).2.2 ↔ id ∈ st.2.2) ∧
    (relStoreStep now st (taskKey id)).1.store.get (taskKey id) =
      st.1.store.get (taskKey id) ∧
    (id ∈ st.2.1 → id ∈ (relStoreStep now st (taskKey id)).2.1) ∧
    memWF (relStoreStep now st (taskKey id)).1 ∧
    storeWF (relStoreStep now st (taskKey id)).1 ∧
    (∀ k t, dget (relStoreStep now st (taskKey id)).1.tasks k = some t →
      k ∈ (relStoreStep now st (taskKey id)).2.1) ∧
    (id ∈ st.2.1 →
      dget (relStoreStep now st (taskKey id)).1.tasks id =
        dget st.1.tasks id) := by
  by_cases hmem2 : id ∈ st.2.1
  · have hstep : relStoreStep now st (taskKey id) = st := by
      simp [relStoreStep, pyStartsWith_taskKey, pyDrop_taskKey, hmem2]
    rw [hstep]
    exact ⟨rfl, Iff.rfl, Iff.rfl, rfl, fun h => h, hWFm, hWFs, hseen,
      fun _ => rfl⟩
  · have hnr : ∀ t, st.1.store.get (taskKey id) = some t → taskNoRel now t := by
      rcases hsafe with h | h
      · exact absurd h hmem2
      · exact h
    have hmemnone : dget st.1.tasks id = none := by
      cases hd : dget st.1.tasks id with
      | none => rfl
      | some t => exact absurd (hseen id t hd) hmem2
    have hvacuous : ∀ {P : Prop}, id ∈ st.2.1 → P := fun h => absurd h hmem2
    have hss : ∀ k t, dget st.1.tasks k = some t →
        k ∈ sadd st.2.1 id := by
      intro k t hk
      exact (mem_sadd_iff _ _ _).mpr (Or.inl (hseen k t hk))
    cases hget : st.1.store.get (taskKey id) with
    | none =>
      have hstep : relStoreStep now st (taskKey id) =
          (st.1, sadd st.2.1 id, st.2.2) := by
        simp [relStoreStep, pyStartsWith_taskKey, pyDrop_taskKey, hmem2, hget]
      rw [hstep]
      exact ⟨rfl, Iff.rfl, Iff.rfl, hget, fun h => hvacuous h, hWFm, hWFs, hss,
        fun h => hvacuous h⟩
    | some task =>
      have htaskid : task.id = id :=
        (taskKey_inj _ _ (hWFs (taskKey id) task hget)).symm
      have hview : st.1.view id = some task := by
        simp [TaskManager.view, hmemnone, hget]
      have hcache :
          TaskManager.view { st.1 with tasks := dput st.1.tasks id task } id =
            st.1.view id ∧
          memWF { st.1 with tasks := dput st.1.tasks id task } ∧
          (∀ k t, dget (dput st.1.tasks id task) k = some t →
            k ∈ sadd st.2.1 id) := by
        refine ⟨?_, ?_, ?_⟩
        · rw [hview]
          simp [TaskManager.view, dget_dput_self]
        · intro k t hk
          exact memWF_dput st.1.tasks id task hWFm htaskid k t hk
        · exact dput_preserve_seen _ _ _ _ hss
            ((mem_sadd_iff _ _ _).mpr (Or.inr rfl))
      cases hca : task.claimed_at with
      | none =>
        have hstep : relStoreStep now st (taskKey id) =
            (st.1, sadd st.2.1 id, st.2.2) := by
          simp [relStoreStep, pyStartsWith_taskKey, pyDrop_taskKey, hmem2,
            hget, hca]
        rw [hstep]
        exact ⟨rfl, Iff.rfl, Iff.rfl, hget, fun h => hvacuous h, hWFm, hWFs,
          hss, fun h => hvacuous h⟩
      | some c =>
        by_cases hstate : task.state = TaskState.assigned
        · cases httl : ttlOf task with
          | none =>
            have hstep : relStoreStep now st (taskKey id) =
                ({ st.1 with tasks := dput st.1.tasks id task },
                  sadd st.2.1 id, st.2.2) := by
              simp [relStoreStep, pyStartsWith_taskKey, pyDrop_taskKey, hmem2,
                hget, hca, hstate, httl]
            rw [hstep]
            exact ⟨hcache.1, Iff.rfl, Iff.rfl, hget, fun h => hvacuous h,
              hcache.2.1, hWFs, hcache.2.2, fun h => hvacuous h⟩
          | some d =>
            by_cases hexp : now - c ≥ d
            · exfalso
              rcases hnr task hget with h | h | h | ⟨c2, d2, hc2, hd2, hlt⟩
              · exact h hstate
              · rw [hca] at h; exact Option.noConfusion h
              · rw [httl] at h; exact Option.noConfusion h
              · rw [hca] at hc2
                rw [httl] at hd2
                cases hc2
                cases hd2
                exact absurd hexp (not_le.mpr hlt)
            · have hstep : relStoreStep now st (taskKey id) =
                  ({ st.1 with tasks := dput st.1.tasks id task },
                    sadd st.2.1 id, st.2.2) := by
                simp [relStoreStep, pyStartsWith_taskKey, pyDrop_taskKey,
                  hmem2, hget, hca, hstate, httl, hexp]
              rw [hstep]
              exact ⟨hcache.1, Iff.rfl, Iff.rfl, hget, fun h => hvacuous h,
                hcache.2.1, hWFs, hcache.2.2, fun h => hvacuous h⟩
        · have hstep : relStoreStep now st (taskKey id) =
              (st.1, sadd st.2.1 id, st.2.2) := by
            simp [relStoreStep, pyStartsWith_taskKey, pyDrop_taskKey, hmem2,
              hget, hca, hstate]
          rw [hstep]
          exact ⟨rfl, Iff.rfl, Iff.rfl, hget, fun h => hvacuous h, hWFm, hWFs,
            hss, fun h => hvacuous h⟩

/-- One store-loop iteration at the id's own key with an unseen, ASSIGNED,
claimed and expired store task: the task is released. -/
theorem relStoreStep_release_at (now : Int)
    (st : TaskManager × List String × List String) (id : String) (task : Task)
    (c d : Int)
    (hWFm : memWF st.1) (hWFs : storeWF st.1)
    (hseen : ∀ k t, dget st.1.tasks k = some t → k ∈ st.2.1)
    (hnot : id ∉ st.2.1)
    (hget : st.1.store.get (taskKey id) = some task)
    (hca : task.claimed_at = some c) (hstate : task.state = TaskState.assigned)
    (httl : ttlOf task = some d) (hexp : now - c ≥ d) :
    dget (relStoreStep now st (taskKey id)).1.tasks id =
      some (releasedTask task) ∧
    id ∈ (relStoreStep now st (taskKey id)).1.pending_task_ids ∧
    (relStoreStep now st (taskKey id)).1.store.get (taskKey id) =
      some (releasedTask task) ∧
    id ∈ (relStoreStep now st (taskKey id)).2.2 ∧
    id ∈ (relStoreStep now st (taskKey id)).2.1 ∧
    memWF (relStoreStep now st (taskKey id)).1 ∧
    storeWF (relStoreStep now st (taskKey id)).1 ∧
    (∀ k t, dget (relStoreStep now st (taskKey id)).1.tasks k = some t →
      k ∈ (relStoreStep now st (taskKey id)).2.1) := by
  have htaskid : task.id = id :=
    (taskKey_inj _ _ (hWFs (taskKey id) task hget)).symm
  have hss : ∀ k t, dget st.1.tasks k = some t → k ∈ sadd st.2.1 id := by
    intro k t hk
    exact (mem_sadd_iff _ _ _).mpr (Or.inl (hseen k t hk))
  have hss1 : ∀ k t, dget (dput st.1.tasks id task) k = some t →
      k ∈ sadd st.2.1 id :=
    dput_preserve_seen _ _ _ _ hss ((mem_sadd_iff _ _ _).mpr (Or.inr rfl))
  have hstep : relStoreStep now st (taskKey id) =
      ((releaseNow { st.1 with tasks := dput st.1.tasks id task }
          st.2.2 id task).1,
        sadd st.2.1 id,
        (releaseNow { st.1 with tasks := dput st.1.tasks id task }
          st.2.2 id task).2) := by
    simp [relStoreStep, pyStartsWith_taskKey, pyDrop_taskKey, hnot, hget, hca,
      hstate, httl, hexp]
  rw [hstep]
  refine ⟨?_, ?_, ?_, ?_, ?_, ?_, ?_, ?_⟩
  · simp [releaseNow, releasedTask, dget_dput_self]
  · simp [releaseNow, mem_sadd_iff]
  · have : taskKey task.id = taskKey id := by rw [htaskid]
    simp [releaseNow, releasedTask, this, MemoryStore.get_put_self]
  · simp [releaseNow]
  · exact (mem_sadd_iff _ _ _).mpr (Or.inr rfl)
  · intro k t hk
    simp only [releaseNow] at hk
    exact memWF_dput _ _ _
      (fun k2 t2 h2 => memWF_dput st.1.tasks id task hWFm htaskid k2 t2 h2)
      (by simp [htaskid]) k t hk
  · intro k t hk
    simp only [releaseNow] at hk
    exact storeWF_put st.1.store
      { task with state := TaskState.pending, assigned_to := none,
                  claimed_at := none } hWFs k t hk
  · intro k t hk
    simp only [releaseNow] at hk
    exact dput_preserve_seen _ _ _ _ hss1
      ((mem_sadd_iff _ _ _).mpr (Or.inr rfl)) k t hk

/-- Frame for the whole store-key fold when the id's key is not among the
keys: nothing about `id` changes, and the seen set holds `id` exactly as
before. -/
theorem relStoreFold_frame (now : Int) (keys : List String)
    (st : TaskManager × List String × List String) (id : String)
    (hWFm : memWF st.1) (hWFs : storeWF st.1)
    (hseen : ∀ k t, dget st.1.tasks k = some t → k ∈ st.2.1)
    (hkeys : ∀ K ∈ keys, pyStartsWith K "task:" = true)
    (hnotin : taskKey id ∉ keys) :
    dget (keys.foldl (relStoreStep now) st).1.tasks id = dget st.1.tasks id ∧
    (keys.foldl (relStoreStep now) st).1.store.get (taskKey id) =
      st.1.store.get (taskKey id) ∧
    (id ∈ (keys.foldl (relStoreStep now) st).1.pending_task_ids ↔
      id ∈ st.1.pending_task_ids) ∧
    (id ∈ (keys.foldl (relStoreStep now) st).2.2 ↔ id ∈ st.2.2) ∧
    (id ∈ (keys.foldl (relStoreStep now) st).2.1 ↔ id ∈ st.2.1) ∧
    memWF (keys.foldl (relStoreStep now) st).1 ∧
    storeWF (keys.foldl (relStoreStep now) st).1 ∧
    (∀ k t, dget (keys.foldl (relStoreStep now) st).1.tasks k = some t →
      k ∈ (keys.foldl (relStoreStep now) st).2.1) := by
  induction keys generalizing st with
  | nil => exact ⟨rfl, rfl, Iff.rfl, Iff.rfl, Iff.rfl, hWFm, hWFs, hseen⟩
  | cons K rest ih =>
    have hKne : K ≠ taskKey id := by
      intro hh
      exact hnotin (by rw [← hh]; exact List.mem_cons_self _ _)
    obtain ⟨f1, f2, f3, f4, f5, f6, f7, f8⟩ :=
      relStoreStep_frame now st K id (hkeys K (List.mem_cons_self _ _)) hKne
        hWFm hWFs hseen
    rw [List.foldl_cons]
    obtain ⟨g1, g2, g3, g4, g5, g6, g7, g8⟩ := ih (relStoreStep now st K) f6 f7 f8
      (fun K2 h2 => hkeys K2 (List.mem_cons_of_mem _ h2))
      (fun hh => hnotin (List.mem_cons_of_mem _ hh))
    exact ⟨g1.trans f1, g2.trans f2, g3.trans f3, g4.trans f4, g5.trans f5,
      g6, g7, g8⟩

/-- Master lemma for the store-key fold: when every occurrence of the id's
key meets an already-seen id or a store task that cannot be released, the
id's view, pending membership and released membership are all preserved. -/
theorem relStoreFold_safe (now : Int) (keys : List String)
    (st : TaskManager × List String × List String) (id : String)
    (hWFm : memWF st.1) (hWFs : storeWF st.1)
    (hseen : ∀ k t, dget st.1.tasks k = some t → k ∈ st.2.1)
    (hkeys : ∀ K ∈ keys, pyStartsWith K "task:" = true)
    (hsafe : taskKey id ∈ keys →
      id ∈ st.2.1 ∨
      (∀ t, st.1.store.get (taskKey id) = some t → taskNoRel now t)) :
    TaskManager.view (keys.foldl (relStoreStep now) st).1 id =
      TaskManager.view st.1 id ∧
    (id ∈ (keys.foldl (relStoreStep now) st).1.pending_task_ids ↔
      id ∈ st.1.pending_task_ids) ∧
    (id ∈ (keys.foldl (relStoreStep now) st).2.2 ↔ id ∈ st.2.2) ∧
    (keys.foldl (relStoreStep now) st).1.store.get (taskKey id) =
      st.1.store.get (taskKey id) ∧
    (id ∈ st.2.1 → id ∈ (keys.foldl (relStoreStep now) st).2.1) ∧
    memWF (keys.foldl (relStoreStep now) st).1 ∧
    storeWF (keys.foldl (relStoreStep now) st).1 ∧
    (∀ k t, dget (keys.foldl (relStoreStep now) st).1.tasks k = some t →
      k ∈ (keys.foldl (relStoreStep now) st).2.1) ∧
    (id ∈ st.2.1 →
      dget (keys.foldl (relStoreStep now) st).1.tasks id =
        dget st.1.tasks id) := by
  induction keys generalizing st with
  | nil =>
    exact ⟨rfl, Iff.rfl, Iff.rfl, rfl, fun h => h, hWFm, hWFs, hseen,
      fun _ => rfl⟩
  | cons K rest ih =>
    rw [List.foldl_cons]
    by_cases hK : K = taskKey id
    · subst hK
      obtain ⟨f1, f2, f3, f4, f5, f6, f7, f8, f9⟩ :=
        relStoreStep_at_safe now st id hWFm hWFs hseen
          (hsafe (List.mem_cons_self _ _))
      obtain ⟨g1, g2, g3, g4, g5, g6, g7, g8, g9⟩ :=
        ih (relStoreStep now st (taskKey id)) f6 f7 f8
          (fun K2 h2 => hkeys K2 (List.mem_cons_of_mem _ h2))
          (fun _ => by
            rcases hsafe (List.mem_cons_self _ _) with h | h
            · exact Or.inl (f5 h)
            · exact Or.inr (fun t ht => h t (f4 ▸ ht)))
      exact ⟨g1.trans f1, g2.trans f2, g3.trans f3, g4.trans f4,
        fun h => g5 (f5 h), g6, g7, g8,
        fun h => (g9 (f5 h)).trans (f9 h)⟩
    · obtain ⟨f1, f2, f3, f4, f5, f6, f7, f8⟩ :=
        relStoreStep_frame now st K id (hkeys K (List.mem_cons_self _ _)) hK
          hWFm hWFs hseen
      obtain ⟨g1, g2, g3, g4, g5, g6, g7, g8, g9⟩ :=
        ih (relStoreStep now st K) f6 f7 f8
          (fun K2 h2 => hkeys K2 (List.mem_cons_of_mem _ h2))
          (fun hmem => by
            rcases hsafe (List.mem_cons_of_mem _ hmem) with h | h
            · exact Or.inl (f5.mpr h)
            · exact Or.inr (fun t ht => h t (f2 ▸ ht)))
      refine ⟨?_, g2.trans f3, g3.trans f4, g4.trans f2,
        fun h => g5 (f5.mpr h), g6, g7, g8,
        fun h => (g9 (f5.mpr h)).trans f1⟩
      have hv : TaskManager.view (relStoreStep now st K).1 id =
          TaskManager.view st.1 id := view_congr _ _ _ f1 f2
      exact g1.trans hv

/-- One memory-loop iteration at an id whose cached task is ASSIGNED, claimed
and expired: the task is released. -/
theorem relMemStep_release_at (now : Int) (st : TaskManager × List String)
    (id : String) (task : Task) (c d : Int)
    (hWFm : memWF st.1) (hWFs : storeWF st.1)
    (hget : dget st.1.tasks id = some task)
    (hca : task.claimed_at = some c) (hstate : task.state = TaskState.assigned)
    (httl : ttlOf task = some d) (hexp : now - c ≥ d) :
    dget (relMemStep now st id).1.tasks id = some (releasedTask task) ∧
    id ∈ (relMemStep now st id).1.pending_task_ids ∧
    (relMemStep now st id).1.store.get (taskKey id) =
      some (releasedTask task) ∧
    id ∈ (relMemStep now st id).2 ∧
    memWF (relMemStep now st id).1 ∧ storeWF (relMemStep now st id).1 := by
  have htaskid : task.id = id := hWFm id task hget
  have hstep : relMemStep now st id = releaseNow st.1 st.2 id task := by
    simp [relMemStep, hget, hca, hstate, httl, hexp]
  rw [hstep]
  refine ⟨?_, ?_, ?_, ?_, ?_, ?_⟩
  · simp [releaseNow, releasedTask, dget_dput_self]
  · simp [releaseNow, mem_sadd_iff]
  · have hk : taskKey task.id = taskKey id := by rw [htaskid]
    simp [releaseNow, releasedTask, hk, MemoryStore.get_put_self]
  · simp [releaseNow]
  · intro k t hk
    simp only [releaseNow] at hk
    exact memWF_dput st.1.tasks id _ hWFm (by simp [htaskid]) k t hk
  · intro k t hk
    simp only [releaseNow] at hk
    exact storeWF_put st.1.store
      { task with state := TaskState.pending, assigned_to := none,
                  claimed_at := none } hWFs k t hk

theorem mem_dkeys_dget {α : Type} (l : List (String × α)) (k : String)
    (h : k ∈ dkeys l) : ∃ v, dget l k = some v := by
  induction l with
  | nil => simp [dkeys] at h
  | cons p rest ih =>
    by_cases hk : p.1 = k
    · exact ⟨p.2, by simp [dget, hk]⟩
    · have : k ∈ dkeys rest := by
        simp [dkeys] at h
        rcases h with h | h
        · exact absurd h.symm hk
        · simpa [dkeys] using h
      obtain ⟨v, hv⟩ := ih this
      exact ⟨v, by simp [dget, hk, hv]⟩

theorem view_of_mem (tm : TaskManager) (id : String) (t : Task)
    (h : dget tm.tasks id = some t) : tm.view id = some t := by
  simp [TaskManager.view, h]

theorem MemoryStore.get_eq_some {α : Type} (s : MemoryStore α) (k : String)
    (v : α) (h : s.get k = some v) : dget s.data k = some (some v) := by
  unfold MemoryStore.get at h
  cases hd : dget s.data k with
  | none => rw [hd] at h; exact Option.noConfusion h
  | some ov =>
    rw [hd] at h
    rw [show ov = some v from h]

/-! ## Claim C5 — release of expired claims -/

/-- C5: for every ASSIGNED task (as the manager sees it, in memory or in the
store) whose constraints hold a numeric `claim_ttl_sec = d` with
`now - claimed_at ≥ d`, `release_expired_claims(now)` returns the task's id
and leaves the task PENDING with `assigned_to` and `claimed_at` cleared and
the id back in the pending index; a task whose constraints lack
`claim_ttl_sec` is never released. -/
theorem release_expired_spec (tm : TaskManager) (now : Int) (id : String)
    (hWFm : memWF tm) (hWFs : storeWF tm) :
    (∀ task c d, tm.view id = some task → task.state = TaskState.assigned →
      task.claimed_at = some c →
      dget task.constraints "claim_ttl_sec" = some (.num d) → now - c ≥ d →
      id ∈ (tm.release_expired_claims now).1 ∧
      (tm.release_expired_claims now).2.view id = some (releasedTask task) ∧
      id ∈ (tm.release_expired_claims now).2.pending_task_ids) ∧
    ((∀ t, tm.view id = some t → dget t.constraints "claim_ttl_sec" = none) →
      id ∉ (tm.release_expired_claims now).1) := by
  have hkeys : ∀ K ∈ tm.store.list "task:", pyStartsWith K "task:" = true := by
    intro K hK
    exact (List.mem_filter.mp hK).2
  have hseen0 : ∀ k t, dget tm.tasks k = some t → k ∈ dkeys tm.tasks :=
    fun k t h => dget_some_mem _ _ _ h
  constructor
  · intro task c d hview hstate hca httlc hexp
    have httl : ttlOf task = some d := by simp [ttlOf, httlc, pyFloat]
    cases hmem : dget tm.tasks id with
    | some t0 =>
      have ht0 : t0 = task := by
        rw [view_of_mem tm id t0 hmem] at hview
        exact Option.some_inj.mp hview
      subst ht0
      have hidin : id ∈ dkeys tm.tasks := dget_some_mem _ _ _ hmem
      set st1 := (tm.store.list "task:").foldl (relStoreStep now)
        (tm, dkeys tm.tasks, []) with hst1
      obtain ⟨s1, s2, s3, s4, s5, s6, s7, s8, s9⟩ :=
        relStoreFold_safe now (tm.store.list "task:") (tm, dkeys tm.tasks, [])
          id hWFm hWFs hseen0 hkeys (fun _ => Or.inl hidin)
      have hmem1 : dget st1.1.tasks id = some t0 := (s9 hidin).trans hmem
      have hid1 : id ∈ dkeys st1.1.tasks := dget_some_mem _ _ _ hmem1
      obtain ⟨T1, T2, hsplit, hT1⟩ := exists_first_split id _ hid1
      set stm := T1.foldl (relMemStep now) (st1.1, st1.2.2) with hstm
      obtain ⟨m1, m2, m3, m4, m5, m6⟩ :=
        relMemFold_safe now T1 (st1.1, st1.2.2) id s6 s7
          (fun hmemT1 => absurd hmemT1 hT1)
      have hmem2 : dget stm.1.tasks id = some t0 := m1.trans hmem1
      obtain ⟨r1, r2, r3, r4, r5, r6⟩ :=
        relMemStep_release_at now stm id t0 c d m5 m6 hmem2 hca hstate httl hexp
      obtain ⟨q1, q2, q3, q4, q5, q6⟩ :=
        relMemFold_safe now T2 (relMemStep now stm id) id r5 r6
          (fun _ t ht => by
            rw [r1] at ht
            rw [← Option.some_inj.mp ht]
            simp [taskNoRel, releasedTask])
      have hrel0 : tm.release_expired_claims now =
          (((dkeys st1.1.tasks).foldl (relMemStep now) (st1.1, st1.2.2)).2,
           ((dkeys st1.1.tasks).foldl (relMemStep now) (st1.1, st1.2.2)).1) :=
        rfl
      have hrel : tm.release_expired_claims now =
          ((T2.foldl (relMemStep now) (relMemStep now stm id)).2,
           (T2.foldl (relMemStep now) (relMemStep now stm id)).1) := by
        rw [hrel0, hsplit, List.foldl_append, List.foldl_cons, ← hstm]
      rw [hrel]
      exact ⟨q4.mpr r4, view_of_mem _ _ _ (q1.trans r1), q3.mpr r2⟩
    | none =>
      have hviewstore : tm.view id = tm.store.get (taskKey id) := by
        simp [TaskManager.view, hmem]
      rw [hviewstore] at hview
      have hkin : taskKey id ∈ tm.store.list "task:" := by
        have hdata := MemoryStore.get_eq_some tm.store (taskKey id) task hview
        have hmemk : taskKey id ∈ dkeys tm.store.data :=
          dget_some_mem _ _ _ hdata
        exact List.mem_filter.mpr ⟨hmemk, pyStartsWith_taskKey id⟩
      obtain ⟨K1, K2, hksplit, hK1⟩ := exists_first_split (taskKey id) _ hkin
      set stA := K1.foldl (relStoreStep now) (tm, dkeys tm.tasks, []) with hstA
      obtain ⟨f1, f2, f3, f4, f5, f6, f7, f8⟩ :=
        relStoreFold_frame now K1 (tm, dkeys tm.tasks, []) id hWFm hWFs hseen0
          (fun K hK => hkeys K (by
            rw [hksplit]; exact List.mem_append_left _ hK)) hK1
      have hnotseen : id ∉ stA.2.1 := by
        rw [f5]
        intro hc
        obtain ⟨v, hv⟩ := mem_dkeys_dget _ _ hc
        rw [hmem] at hv
        exact Option.noConfusion hv
      have hgetA : stA.1.store.get (taskKey id) = some task := f2.trans hview
      set stB := relStoreStep now stA (taskKey id) with hstB
      obtain ⟨r1, r2, r3, r4, r5, r6, r7, r8⟩ :=
        relStoreStep_release_at now stA id task c d f6 f7 f8 hnotseen hgetA
          hca hstate httl hexp
      set stC := K2.foldl (relStoreStep now) stB with hstC
      obtain ⟨u1, u2, u3, u4, u5, u6, u7, u8, u9⟩ :=
        relStoreFold_safe now K2 stB id r6 r7 r8
          (fun K hK => hkeys K (by
            rw [hksplit]
            exact List.mem_append_right _ (List.mem_cons_of_mem _ hK)))
          (fun _ => Or.inl r5)
      have hmemC : dget stC.1.tasks id = some (releasedTask task) :=
        (u9 r5).trans r1
      obtain ⟨q1, q2, q3, q4, q5, q6⟩ :=
        relMemFold_safe now (dkeys stC.1.tasks) (stC.1, stC.2.2) id u6 u7
          (fun _ t ht => by
            rw [hmemC] at ht
            rw [← Option.some_inj.mp ht]
            simp [taskNoRel, releasedTask])
      have hrel : tm.release_expired_claims now =
          (((dkeys stC.1.tasks).foldl (relMemStep now) (stC.1, stC.2.2)).2,
           ((dkeys stC.1.tasks).foldl (relMemStep now) (stC.1, stC.2.2)).1) := by
        rw [show tm.release_expired_claims now =
            (((dkeys (((tm.store.list "task:")).foldl (relStoreStep now)
                (tm, dkeys tm.tasks, [])).1.tasks).foldl (relMemStep now)
              ((((tm.store.list "task:")).foldl (relStoreStep now)
                (tm, dkeys tm.tasks, [])).1,
               (((tm.store.list "task:")).foldl (relStoreStep now)
                (tm, dkeys tm.tasks, [])).2.2)).2,
             ((dkeys (((tm.store.list "task:")).foldl (relStoreStep now)
                (tm, dkeys tm.tasks, [])).1.tasks).foldl (relMemStep now)
              ((((tm.store.list "task:")).foldl (relStoreStep now)
                (tm, dkeys tm.tasks, [])).1,
               (((tm.store.list "task:")).foldl (relStoreStep now)
                (tm, dkeys tm.tasks, [])).2.2)).1) from rfl]
        rw [hksplit, List.foldl_append, List.foldl_cons, ← hstA, ← hstB, ← hstC]
      rw [hrel]
      exact ⟨q4.mpr (u3.mpr r4), view_of_mem _ _ _ (q1.trans hmemC),
        q3.mpr (u2.mpr r2)⟩
  · intro hnottl
    have hsafe1 : taskKey id ∈ tm.store.list "task:" →
        id ∈ (tm, dkeys tm.tasks, ([] : List String)).2.1 ∨
        (∀ t, (tm, dkeys tm.tasks, ([] : List String)).1.store.get
          (taskKey id) = some t → taskNoRel now t) := by
      intro _
      cases hmem : dget tm.tasks id with
      | some t0 => exact Or.inl (dget_some_mem _ _ _ hmem)
      | none =>
        refine Or.inr (fun t ht => ?_)
        have hv : tm.view id = some t := by
          simp [TaskManager.view, hmem]
          exact ht
        have hn := hnottl t hv
        exact Or.inr (Or.inr (Or.inl (by simp [ttlOf, hn])))
    set st1 := (tm.store.list "task:").foldl (relStoreStep now)
      (tm, dkeys tm.tasks, []) with hst1
    obtain ⟨s1, s2, s3, s4, s5, s6, s7, s8, s9⟩ :=
      relStoreFold_safe now (tm.store.list "task:") (tm, dkeys tm.tasks, [])
        id hWFm hWFs hseen0 hkeys hsafe1
    obtain ⟨q1, q2, q3, q4, q5, q6⟩ :=
      relMemFold_safe now (dkeys st1.1.tasks) (st1.1, st1.2.2) id s6 s7
        (fun _ t ht => by
          have hv : st1.1.view id = some t := view_of_mem _ _ _ ht
          rw [s1] at hv
          have hn := hnottl t hv
          exact Or.inr (Or.inr (Or.inl (by simp [ttlOf, hn]))))
    have hrel0 : tm.release_expired_claims now =
        (((dkeys st1.1.tasks).foldl (relMemStep now) (st1.1, st1.2.2)).2,
         ((dkeys st1.1.tasks).foldl (relMemStep now) (st1.1, st1.2.2)).1) :=
      rfl
    rw [hrel0]
    intro hcon
    exact absurd (s3.mp (q4.mp hcon)) (List.not_mem_nil id)

theorem memWF_of_single (tm : TaskManager) (id0 : String) (t0 : Task)
    (htasks : tm.tasks = [(id0, t0)]) (hid : t0.id = id0) : memWF tm := by
  intro k t h
  rw [htasks] at h
  by_cases hk : id0 = k
  · subst hk
    simp [dget] at h
    rw [← h]
    exact hid
  · simp [dget, hk] at h

theorem storeWF_of_single (tm : TaskManager) (t0 : Task)
    (hstore : tm.store.data = [(taskKey t0.id, some t0)]) : storeWF tm := by
  intro k t h
  have hd := MemoryStore.get_eq_some tm.store k t h
  rw [hstore] at hd
  by_cases hk : taskKey t0.id = k
  · subst hk
    simp [dget] at hd
    rw [← hd]
  · simp [dget, hk] at hd

/-- An expired ASSIGNED task cached and persisted by a manager. -/
def tC5 : Task :=
  { id := "t5", constraints := [("claim_ttl_sec", .num 10)],
    state := .assigned, assigned_to := some "a", claimed_at := some 100 }

def tmC5 : TaskManager :=
  { store := ⟨[(taskKey "t5", some tC5)]⟩, tasks := [("t5", tC5)],
    pending_task_ids := [] }

/-- C5 witness: at `now = 110` a task claimed at 100 with a 10-second TTL is
released back to PENDING. -/
theorem release_expired_spec_witness :
    "t5" ∈ (tmC5.release_expired_claims 110).1 ∧
    (tmC5.release_expired_claims 110).2.view "t5" = some (releasedTask tC5) ∧
    "t5" ∈ (tmC5.release_expired_claims 110).2.pending_task_ids := by
  have hWFm : memWF tmC5 := memWF_of_single tmC5 "t5" tC5 rfl rfl
  have hWFs : storeWF tmC5 := storeWF_of_single tmC5 tC5 rfl
  exact (release_expired_spec tmC5 110 "t5" hWFm hWFs).1 tC5 100 10 rfl rfl rfl
    rfl (by decide)

/-! ## Claim C2 — terminal states -/

theorem isTerminal_not_pending (s : TaskState) (h : s.isTerminal = true) :
    s ≠ TaskState.pending := by
  cases s <;> simp_all [TaskState.isTerminal]

theorem isTerminal_not_assigned (s : TaskState) (h : s.isTerminal = true) :
    s ≠ TaskState.assigned := by
  cases s <;> simp_all [TaskState.isTerminal]

theorem isTerminal_cases (s : TaskState) (h : s.isTerminal = true) :
    s = TaskState.completed ∨ s = TaskState.failed ∨
    s = TaskState.cancelled := by
  cases s <;> simp_all [TaskState.isTerminal]

/-- What the shared `findTask` idiom does: it returns the manager's view of
the id, caches a store-found task, and touches nothing else. -/
theorem findTask_spec (tm : TaskManager) (id : String) :
    (tm.findTask id).1 = tm.view id ∧
    (∀ t, tm.view id = some t →
      dget (tm.findTask id).2.tasks id = some t) ∧
    (tm.view id = none → (tm.findTask id).2 = tm) ∧
    (tm.findTask id).2.store = tm.store ∧
    (tm.findTask id).2.pending_task_ids = tm.pending_task_ids := by
  cases hmem : dget tm.tasks id with
  | some t0 =>
    refine ⟨by simp [TaskManager.findTask, TaskManager.view, hmem], ?_, ?_,
      by simp [TaskManager.findTask, hmem], by simp [TaskManager.findTask, hmem]⟩
    · intro t hv
      rw [view_of_mem tm id t0 hmem] at hv
      simp [TaskManager.findTask, hmem]
      exact Option.some_inj.mp hv
    · intro hv
      rw [view_of_mem tm id t0 hmem] at hv
      exact Option.noConfusion hv
  | none =>
    cases hst : tm.store.get (taskKey id) with
    | some t0 =>
      refine ⟨by simp [TaskManager.findTask, TaskManager.view, hmem, hst],
        ?_, ?_, by simp [TaskManager.findTask, hmem, hst],
        by simp [TaskManager.findTask, hmem, hst]⟩
      · intro t hv
        have : tm.view id = some t0 := by simp [TaskManager.view, hmem, hst]
        rw [this] at hv
        simp [TaskManager.findTask, hmem, hst, dget_dput_self]
        exact Option.some_inj.mp hv
      · intro hv
        have : tm.view id = some t0 := by simp [TaskManager.view, hmem, hst]
        rw [this] at hv
        exact Option.noConfusion hv
    | none =>
      have hv : tm.view id = none := by simp [TaskManager.view, hmem, hst]
      exact ⟨by simp [TaskManager.findTask, TaskManager.view, hmem, hst],
        fun t ht => absurd (hv ▸ ht) (by simp),
        fun _ => by simp [TaskManager.findTask, hmem, hst],
        by simp [TaskManager.findTask, hmem, hst],
        by simp [TaskManager.findTask, hmem, hst]⟩

/-- C2 amended: once a task is terminal (COMPLETED, FAILED or CANCELLED),
`claim`, `cancel_task` and `release_expired_claims` leave its state, its
assignment and its result untouched (claim and cancel return false; release
never returns its id); but `report` and `fail_task` perform no terminal-state
check: `report(a, id, r)` on a FAILED (or any terminal) task whose
`assigned_to` is `a` moves it to COMPLETED with the new result, and
`fail_task(id, r)` on a COMPLETED task moves it to FAILED. -/
theorem terminal_state_ops (tm : TaskManager) (a id : String) (r : PVal)
    (now : Int) (hWFm : memWF tm) (hWFs : storeWF tm) :
    (∀ t, tm.view id = some t → t.state.isTerminal = true →
      (tm.claim a id now).1 = false ∧
      (tm.claim a id now).2.view id = some t) ∧
    (∀ t, tm.view id = some t → t.state.isTerminal = true →
      (tm.cancel_task id).1 = false ∧
      (tm.cancel_task id).2.view id = some t) ∧
    (∀ t, tm.view id = some t → t.state.isTerminal = true →
      id ∉ (tm.release_expired_claims now).1 ∧
      (tm.release_expired_claims now).2.view id = some t) ∧
    (∀ t, tm.view id = some t → t.state = TaskState.failed →
      t.assigned_to = some a →
      ∃ tm2, tm.report a id r = .ok tm2 ∧
        tm2.view id = some { t with result := r, state := .completed }) ∧
    (∀ t, tm.view id = some t → t.state = TaskState.completed →
      ∃ tm2, tm.fail_task id r none = .ok tm2 ∧
        tm2.view id = some { t with state := .failed, result := r,
                                    claimed_at := none }) := by
  obtain ⟨ft1, ft2, ft3, ft4, ft5⟩ := findTask_spec tm id
  refine ⟨?_, ?_, ?_, ?_, ?_⟩
  · -- claim
    intro t hv hterm
    have hnp : t.state ≠ TaskState.pending := isTerminal_not_pending _ hterm
    cases hmem : dget tm.tasks id with
    | some t0 =>
      have ht0 : t0 = t := by
        rw [view_of_mem tm id t0 hmem] at hv
        exact Option.some_inj.mp hv
      subst ht0
      have hclaim : tm.claim a id now = (false, tm) := by
        simp [TaskManager.claim, hmem, TaskManager.claimGo, hnp]
      rw [hclaim]
      exact ⟨rfl, hv⟩
    | none =>
      cases hst : tm.store.get (taskKey id) with
      | some t0 =>
        have ht0 : t0 = t := by
          have : tm.view id = some t0 := by simp [TaskManager.view, hmem, hst]
          rw [this] at hv
          exact Option.some_inj.mp hv
        subst ht0
        have hclaim : tm.claim a id now =
            (false, { tm with tasks := dput tm.tasks id t0 }) := by
          simp [TaskManager.claim, hmem, hst, TaskManager.claimGo, hnp]
        rw [hclaim]
        exact ⟨rfl, by simp [TaskManager.view, dget_dput_self]⟩
      | none =>
        have : tm.view id = none := by simp [TaskManager.view, hmem, hst]
        rw [this] at hv
        exact Option.noConfusion hv
  · -- cancel
    intro t hv hterm
    have hv2 : (tm.findTask id).1 = some t := by rw [ft1]; exact hv
    have hguard : t.state = TaskState.completed ∨ t.state = TaskState.failed ∨
        t.state = TaskState.cancelled := isTerminal_cases _ hterm
    have hcancel : tm.cancel_task id = (false, (tm.findTask id).2) := by
      simp [TaskManager.cancel_task, hv2, hguard]
    rw [hcancel]
    exact ⟨rfl, view_of_mem _ _ _ (ft2 t hv)⟩
  · -- release
    intro t hv hterm
    have hna : t.state ≠ TaskState.assigned := isTerminal_not_assigned _ hterm
    have hkeys : ∀ K ∈ tm.store.list "task:",
        pyStartsWith K "task:" = true := by
      intro K hK
      exact (List.mem_filter.mp hK).2
    have hseen0 : ∀ k t2, dget tm.tasks k = some t2 → k ∈ dkeys tm.tasks :=
      fun k t2 h => dget_some_mem _ _ _ h
    have hsafe1 : taskKey id ∈ tm.store.list "task:" →
        id ∈ (tm, dkeys tm.tasks, ([] : List String)).2.1 ∨
        (∀ t2, (tm, dkeys tm.tasks, ([] : List String)).1.store.get
          (taskKey id) = some t2 → taskNoRel now t2) := by
      intro _
      cases hmem : dget tm.tasks id with
      | some t0 => exact Or.inl (dget_some_mem _ _ _ hmem)
      | none =>
        refine Or.inr (fun t2 ht2 => ?_)
        have hv2 : tm.view id = some t2 := by
          simp [TaskManager.view, hmem]
          exact ht2
        rw [hv] at hv2
        rw [← Option.some_inj.mp hv2]
        exact Or.inl hna
    set st1 := (tm.store.list "task:").foldl (relStoreStep now)
      (tm, dkeys tm.tasks, []) with hst1
    obtain ⟨s1, s2, s3, s4, s5, s6, s7, s8, s9⟩ :=
      relStoreFold_safe now (tm.store.list "task:") (tm, dkeys tm.tasks, [])
        id hWFm hWFs hseen0 hkeys hsafe1
    obtain ⟨q1, q2, q3, q4, q5, q6⟩ :=
      relMemFold_safe now (dkeys st1.1.tasks) (st1.1, st1.2.2) id s6 s7
        (fun _ t2 ht2 => by
          have hv2 : st1.1.view id = some t2 := view_of_mem _ _ _ ht2
          rw [s1, hv] at hv2
          rw [← Option.some_inj.mp hv2]
          exact Or.inl hna)
    have hrel0 : tm.release_expired_claims now =
        (((dkeys st1.1.tasks).foldl (relMemStep now) (st1.1, st1.2.2)).2,
         ((dkeys st1.1.tasks).foldl (relMemStep now) (st1.1, st1.2.2)).1) :=
      rfl
    rw [hrel0]
    constructor
    · intro hcon
      exact absurd (s3.mp (q4.mp hcon)) (List.not_mem_nil id)
    · have hvq : TaskManager.view
          ((dkeys st1.1.tasks).foldl (relMemStep now) (st1.1, st1.2.2)).1 id =
          st1.1.view id := view_congr _ _ _ q1 q2
      rw [hvq, s1]
      exact hv
  · -- report on a FAILED task moves it to COMPLETED
    intro t hv hfail ha
    have hv2 : (tm.findTask id).1 = some t := by rw [ft1]; exact hv
    have hauth : ¬ (t.assigned_to ≠ some a) := by rw [ha]; simp
    refine ⟨{ (tm.findTask id).2 with
        tasks := dput (tm.findTask id).2.tasks id
          { t with result := r, state := .completed },
        store := (tm.findTask id).2.store.put (taskKey
          { t with result := r, state := .completed }.id)
          (some { t with result := r, state := .completed }) }, ?_, ?_⟩
    · simp [TaskManager.report, hv2, hauth]
    · simp [TaskManager.view, dget_dput_self]
  · -- fail_task on a COMPLETED task moves it to FAILED
    intro t hv _
    have hv2 : (tm.findTask id).1 = some t := by rw [ft1]; exact hv
    refine ⟨{ (tm.findTask id).2 with
        tasks := dput (tm.findTask id).2.tasks id
          { t with state := .failed, result := r, claimed_at := none },
        store := (tm.findTask id).2.store.put (taskKey
          { t with state := .failed, result := r, claimed_at := none }.id)
          (some { t with state := .failed, result := r,
                         claimed_at := none }) }, ?_, ?_⟩
    · simp [TaskManager.fail_task, hv2]
    · simp [TaskManager.view, dget_dput_self]

/-- A fresh pending task for the C2 scenario. -/
def tC2 : Task := { id := "t2" }

def tmEmptyC2 : TaskManager :=
  { store := ⟨[]⟩, tasks := [], pending_task_ids := [] }

/-- The manager after submit, claim by `"a"`, then `fail_task` (system-level,
no agent check): the task is FAILED and still assigned to `"a"`. -/
def tmC2f : TaskManager :=
  match (((tmEmptyC2.submit tC2).2.claim "a" "t2" 0).2.fail_task "t2"
      (.str "boom") none) with
  | .ok x => x
  | .error _ => tmEmptyC2

/-- The manager after submit, claim by `"a"`, then a successful report: the
task is COMPLETED. -/
def tmC2c : TaskManager :=
  match (((tmEmptyC2.submit tC2).2.claim "a" "t2" 0).2.report "a" "t2"
      (.str "done")) with
  | .ok x => x
  | .error _ => tmEmptyC2

/-- C2 counterexample: in a state reached by submit → claim → fail (so the
task is FAILED, a terminal state), `report` by the still-recorded assignee
moves it to COMPLETED; and in a state reached by submit → claim → report (so
the task is COMPLETED), `fail_task` moves it to FAILED — terminal states do
not reject these transitions. -/
theorem report_fail_terminal_cex :
    (dget tmC2f.tasks "t2").map Task.state = some .failed ∧
    (match tmC2f.report "a" "t2" (.str "r2") with
     | .ok tm2 => (dget tm2.tasks "t2").map Task.state
     | .error _ => none) = some .completed ∧
    (dget tmC2c.tasks "t2").map Task.state = some .completed ∧
    (match tmC2c.fail_task "t2" (.str "why") none with
     | .ok tm2 => (dget tm2.tasks "t2").map Task.state
     | .error _ => none) = some .failed := by
  exact ⟨rfl, rfl, rfl, rfl⟩

/-- A FAILED task still carrying its assignee. -/
def tC2w : Task := { id := "t2w", state := .failed, assigned_to := some "a" }

def tmC2w : TaskManager :=
  { store := ⟨[(taskKey "t2w", some tC2w)]⟩, tasks := [("t2w", tC2w)],
    pending_task_ids := [] }

/-- C2 amended witness: on a FAILED task, claim fails and release returns
nothing, while report by the recorded assignee completes it. -/
theorem terminal_state_ops_witness :
    (tmC2w.claim "a" "t2w" 0).1 = false ∧
    "t2w" ∉ (tmC2w.release_expired_claims 7).1 ∧
    (∃ tm2, tmC2w.report "a" "t2w" (.str "r") = .ok tm2 ∧
      tm2.view "t2w" = some { tC2w with result := .str "r",
                                        state := .completed }) := by
  have hWFm : memWF tmC2w := memWF_of_single tmC2w "t2w" tC2w rfl rfl
  have hWFs : storeWF tmC2w := storeWF_of_single tmC2w tC2w rfl
  have h := terminal_state_ops tmC2w "a" "t2w" (.str "r") 7 hWFm hWFs
  exact ⟨(h.1 tC2w rfl rfl).1, (h.2.2.1 tC2w rfl rfl).1,
    h.2.2.2.1 tC2w rfl rfl rfl⟩

end Converge
